import Mathlib

/-!
Verification of the normalization-and-rendering pipeline of the
TRMNL PostHog insight viewer.

The development shallowly embeds the two core source modules:

* the insight normalizer (`parseDashboard`, `parseInsight`,
  `parseInsightData`, `sumData`, `formatNumber`), and
* the markup composer and chart renderers (`renderMarkup`, `niceYAxis`,
  `formatAxisNum`, `esc`, `truncate`, `evenlySpaced`, `seriesDateRange`,
  `formatType`, and the chart fragment builders).

The source is dynamically typed, so runtime values are embedded as the
inductive `JVal` (undefined, null, booleans, finite numbers, NaN,
strings, arrays, objects).  Number semantics are modelled over `ℚ`:
the embedding is exact for the integer and small-decimal arithmetic the
program performs, and does not model binary floating-point rounding.
Code that can throw (property access on null/undefined, calling a
string method on a non-string) is embedded in `Except`, and the
normalizer's try/catch block threads the partially updated record so
that the state at the moment of a caught exception is preserved.

All arithmetic is written with `Rat.divInt`/`mkRat`-based operations so
that every definition evaluates by kernel reduction.
-/

/-! ### Rational arithmetic helpers (kernel-computable) -/

/-- The rational `n / 1`. -/
def Qi (n : ℤ) : ℚ := Rat.divInt n 1

/-- Addition on `ℚ`, written via `Rat.divInt` so it kernel-reduces. -/
def qadd (a b : ℚ) : ℚ :=
  Rat.divInt (a.num * (b.den : ℤ) + b.num * (a.den : ℤ)) ((a.den : ℤ) * (b.den : ℤ))

/-- Subtraction on `ℚ` via `Rat.divInt`. -/
def qsub (a b : ℚ) : ℚ :=
  Rat.divInt (a.num * (b.den : ℤ) - b.num * (a.den : ℤ)) ((a.den : ℤ) * (b.den : ℤ))

/-- Multiplication on `ℚ` via `Rat.divInt`. -/
def qmul (a b : ℚ) : ℚ := Rat.divInt (a.num * b.num) ((a.den : ℤ) * (b.den : ℤ))

/-- Division on `ℚ` via `Rat.divInt`.  For `b = 0` this returns `0`
(JS would produce an infinity or NaN; every division in the embedded
code is guarded by a positivity test on the divisor). -/
def qdiv (a b : ℚ) : ℚ := Rat.divInt (a.num * (b.den : ℤ)) ((a.den : ℤ) * b.num)

theorem Qi_eq (n : ℤ) : Qi n = (n : ℚ) := by
  simp [Qi, Rat.divInt_eq_div]

theorem qadd_eq (a b : ℚ) : qadd a b = a + b := by
  have had : ((a.den : ℚ)) ≠ 0 := Nat.cast_ne_zero.mpr a.den_nz
  have hbd : ((b.den : ℚ)) ≠ 0 := Nat.cast_ne_zero.mpr b.den_nz
  rw [qadd, Rat.divInt_eq_div]
  conv_rhs => rw [← Rat.num_div_den a, ← Rat.num_div_den b]
  push_cast
  rw [div_add_div _ _ had hbd]
  ring_nf

theorem qsub_eq (a b : ℚ) : qsub a b = a - b := by
  have had : ((a.den : ℚ)) ≠ 0 := Nat.cast_ne_zero.mpr a.den_nz
  have hbd : ((b.den : ℚ)) ≠ 0 := Nat.cast_ne_zero.mpr b.den_nz
  rw [qsub, Rat.divInt_eq_div]
  conv_rhs => rw [← Rat.num_div_den a, ← Rat.num_div_den b]
  push_cast
  rw [div_sub_div _ _ had hbd]
  ring_nf

theorem qmul_eq (a b : ℚ) : qmul a b = a * b := by
  have had : ((a.den : ℚ)) ≠ 0 := Nat.cast_ne_zero.mpr a.den_nz
  have hbd : ((b.den : ℚ)) ≠ 0 := Nat.cast_ne_zero.mpr b.den_nz
  rw [qmul, Rat.divInt_eq_div]
  conv_rhs => rw [← Rat.num_div_den a, ← Rat.num_div_den b]
  push_cast
  rw [div_mul_div_comm]

theorem qdiv_eq (a b : ℚ) (hb : b ≠ 0) : qdiv a b = a / b := by
  have had : ((a.den : ℚ)) ≠ 0 := Nat.cast_ne_zero.mpr a.den_nz
  have hbd : ((b.den : ℚ)) ≠ 0 := Nat.cast_ne_zero.mpr b.den_nz
  have hbn : ((b.num : ℚ)) ≠ 0 := by
    exact_mod_cast Rat.num_ne_zero.mpr hb
  have ha' : ((a.num : ℚ)) = a * a.den := (div_eq_iff had).mp (Rat.num_div_den a)
  have hb' : ((b.num : ℚ)) = b * b.den := (div_eq_iff hbd).mp (Rat.num_div_den b)
  have hY : ((a.den : ℚ)) * b.num ≠ 0 := mul_ne_zero had hbn
  rw [qdiv, Rat.divInt_eq_div]
  push_cast
  rw [div_eq_div_iff hY hb, ha', hb']
  ring

/-- JS `Math.round`: round half toward positive infinity. -/
def jsRoundQ (q : ℚ) : ℤ := ⌊qadd q (mkRat 1 2)⌋

/-- JS `Number.prototype.toFixed(1)`: round to the integer `n` with
`n/10` closest to the value, ties toward the larger `n`, and print with
exactly one digit after the decimal point. -/
def toFixed1 (q : ℚ) : String :=
  let n : ℤ := ⌊qadd (qmul (Qi 10) q) (mkRat 1 2)⌋
  if n < 0 then
    "-" ++ toString ((-n) / 10) ++ "." ++ toString ((-n) % 10)
  else
    toString (n / 10) ++ "." ++ toString (n % 10)

/-- JS `Number.prototype.toFixed(0)`. -/
def toFixed0 (q : ℚ) : String := toString (jsRoundQ q)

/-! ### Powers of ten and the floor of log10 (kernel-computable) -/

/-- `10^k` for an integer exponent `k`, built so it kernel-reduces. -/
def qpow10 (k : ℤ) : ℚ :=
  if 0 ≤ k then Qi ((10 : ℕ) ^ k.toNat : ℕ) else mkRat 1 ((10 : ℕ) ^ (-k).toNat)

theorem qpow10_eq_zpow (k : ℤ) : qpow10 k = (10 : ℚ) ^ k := by
  rcases k with n | n
  · simp [qpow10, Qi, Rat.divInt_eq_div, zpow_natCast]
  · have h1 : ¬ (0 : ℤ) ≤ Int.negSucc n := Int.not_le.mpr (Int.negSucc_lt_zero n)
    have h2 : (-(Int.negSucc n)).toNat = n + 1 := by simp [Int.neg_negSucc]
    rw [qpow10, if_neg h1, h2, Rat.mkRat_eq_div]
    rw [show Int.negSucc n = -((n : ℤ) + 1) by simp [Int.negSucc_eq]]
    have h3 : ((n : ℤ) + 1) = ((n + 1 : ℕ) : ℤ) := by push_cast; ring
    rw [zpow_neg, h3, zpow_natCast]
    push_cast
    rw [one_div]

theorem qpow10_pos (k : ℤ) : 0 < qpow10 k := by
  rw [qpow10_eq_zpow]
  exact zpow_pos (by norm_num) k

/-- Number of decimal digits of `n` (fuel-based so it kernel-reduces;
`dc fuel n` is correct whenever `n < 10 ^ fuel`). -/
def dc : ℕ → ℕ → ℕ
  | 0, _ => 0
  | fuel + 1, n => if n < 10 then 1 else dc fuel (n / 10) + 1

theorem dc_bounds : ∀ (fuel n : ℕ), 0 < n → n < 10 ^ fuel →
    10 ^ (dc fuel n - 1) ≤ n ∧ n < 10 ^ dc fuel n := by
  intro fuel
  induction fuel with
  | zero => intro n h1 h2; omega
  | succ f ih =>
    intro n h1 h2
    by_cases hn : n < 10
    · simp [dc, hn]
      omega
    · have hd : 0 < n / 10 := by omega
      have hlt : n / 10 < 10 ^ f := by
        rw [Nat.div_lt_iff_lt_mul (by norm_num)]
        calc n < 10 ^ (f + 1) := h2
          _ = 10 ^ f * 10 := by ring
      obtain ⟨hlo, hhi⟩ := ih (n / 10) hd hlt
      have hdc1 : 1 ≤ dc f (n / 10) := by
        cases hf : dc f (n / 10) with
        | zero => rw [hf] at hhi; simp at hhi; omega
        | succ m => omega
      have hEq : dc (f + 1) n = dc f (n / 10) + 1 := by simp [dc, hn]
      constructor
      · rw [hEq, Nat.add_sub_cancel]
        have h10 : 10 ^ dc f (n / 10) ≤ 10 * (n / 10) := by
          calc 10 ^ dc f (n / 10) = 10 ^ (dc f (n / 10) - 1 + 1) := by congr 1; omega
            _ = 10 ^ (dc f (n / 10) - 1) * 10 := pow_succ 10 _
            _ ≤ (n / 10) * 10 := Nat.mul_le_mul_right 10 hlo
            _ = 10 * (n / 10) := Nat.mul_comm _ _
        calc 10 ^ dc f (n / 10) ≤ 10 * (n / 10) := h10
          _ ≤ n := Nat.mul_div_le n 10
      · rw [hEq, pow_succ]
        calc n < (n / 10 + 1) * 10 := by omega
          _ ≤ 10 ^ dc f (n / 10) * 10 := Nat.mul_le_mul_right 10 (by omega)

theorem lt_ten_pow_self (n : ℕ) : n < 10 ^ n :=
  Nat.lt_pow_self (by norm_num) n

/-- The integer `⌊log10 q⌋` for `q > 0` (returns `0` for `q ≤ 0`,
which never occurs at the call site).  Computed from decimal digit
counts so it kernel-reduces; `floorLog10_char` proves it is the floor
of the base-10 logarithm. -/
def floorLog10 (q : ℚ) : ℤ :=
  if q ≤ Qi 0 then 0
  else if Qi 1 ≤ q then (dc ⌊q⌋.toNat ⌊q⌋.toNat : ℤ) - 1
  else
    let c : ℤ := ⌈qdiv (Qi 1) q⌉;
    Int.neg (dc (c - 1).toNat (c - 1).toNat : ℤ)


theorem qpow10_natCast (m : ℕ) : qpow10 (m : ℤ) = ((10 ^ m : ℕ) : ℚ) := by
  rw [qpow10_eq_zpow, zpow_natCast]
  push_cast
  ring

/-- `floorLog10` really is the floor of the base-10 logarithm:
`10 ^ floorLog10 q ≤ q < 10 ^ (floorLog10 q + 1)` for positive `q`. -/
theorem floorLog10_char (q : ℚ) (hq : 0 < q) :
    qpow10 (floorLog10 q) ≤ q ∧ q < qpow10 (floorLog10 q + 1) := by
  have hq0 : ¬ q ≤ Qi 0 := by rw [Qi_eq]; push_cast; exact not_le.mpr hq
  by_cases h1 : Qi 1 ≤ q
  · have h1' : (1 : ℚ) ≤ q := by rw [Qi_eq] at h1; exact_mod_cast h1
    have hfl : (1 : ℤ) ≤ ⌊q⌋ := Int.le_floor.mpr (by exact_mod_cast h1')
    have hnz : ((⌊q⌋.toNat : ℤ)) = ⌊q⌋ := Int.toNat_of_nonneg (by omega)
    set n : ℕ := ⌊q⌋.toNat with hn
    have hnpos : 0 < n := by omega
    obtain ⟨hlo, hhi⟩ := dc_bounds n n hnpos (lt_ten_pow_self n)
    set d := dc n n with hd
    have hd1 : 1 ≤ d := by
      rcases Nat.eq_zero_or_pos d with h | h
      · rw [h] at hhi; simp at hhi; omega
      · exact h
    have hfval : floorLog10 q = (d : ℤ) - 1 := by
      rw [floorLog10, if_neg hq0, if_pos h1]
    constructor
    · rw [hfval, show ((d : ℤ) - 1) = ((d - 1 : ℕ) : ℤ) by omega, qpow10_natCast]
      have hnq : ((n : ℚ)) ≤ q := by
        have := Int.floor_le q
        rw [← hnz] at this
        exact_mod_cast this
      calc ((10 ^ (d - 1) : ℕ) : ℚ) ≤ (n : ℚ) := by exact_mod_cast hlo
        _ ≤ q := hnq
    · rw [hfval, sub_add_cancel, qpow10_natCast]
      have hq_lt : q < (⌊q⌋ : ℚ) + 1 := Int.lt_floor_add_one q
      have hn1 : n + 1 ≤ 10 ^ d := hhi
      calc q < (⌊q⌋ : ℚ) + 1 := hq_lt
        _ = (n : ℚ) + 1 := by rw [← hnz]; push_cast; ring
        _ ≤ ((10 ^ d : ℕ) : ℚ) := by exact_mod_cast hn1
  · have hq1 : q < 1 := by
      rw [Qi_eq] at h1
      push_cast at h1
      linarith
    have hqne : q ≠ 0 := ne_of_gt hq
    have hr : qdiv (Qi 1) q = 1 / q := by
      rw [qdiv_eq _ _ hqne, Qi_eq]
      push_cast
      ring
    have hr1 : 1 < 1 / q := by
      rw [lt_div_iff₀ hq]
      linarith
    have hc : ⌈qdiv (Qi 1) q⌉ = ⌈(1 / q : ℚ)⌉ := by rw [hr]
    have hc2 : 2 ≤ ⌈qdiv (Qi 1) q⌉ := by
      rw [hc]
      have : (1 : ℤ) < ⌈(1 / q : ℚ)⌉ := Int.lt_ceil.mpr (by exact_mod_cast hr1)
      omega
    set c : ℤ := ⌈qdiv (Qi 1) q⌉ with hcdef
    have hcn : ((c - 1).toNat : ℤ) = c - 1 := Int.toNat_of_nonneg (by omega)
    have hpos : 0 < (c - 1).toNat := by omega
    obtain ⟨hlo, hhi⟩ := dc_bounds _ _ hpos (lt_ten_pow_self _)
    set m := dc (c - 1).toNat (c - 1).toNat with hm
    have hm1 : 1 ≤ m := by
      rcases Nat.eq_zero_or_pos m with h | h
      · rw [h] at hhi; simp at hhi; omega
      · exact h
    have hfval : floorLog10 q = -(m : ℤ) := by
      rw [floorLog10, if_neg hq0, if_neg h1]
      rfl
    have hp : (0 : ℚ) < (10 : ℚ) ^ m := by positivity
    constructor
    · rw [hfval, qpow10_eq_zpow, zpow_neg, zpow_natCast]
      have hcle : (c : ℚ) ≤ (10 : ℚ) ^ m := by
        have h1' : c ≤ (10 : ℤ) ^ m := by
          have : ((c - 1).toNat : ℤ) < (10 : ℤ) ^ m := by exact_mod_cast hhi
          rw [hcn] at this
          omega
        calc (c : ℚ) ≤ (((10 : ℤ) ^ m : ℤ) : ℚ) := by exact_mod_cast h1'
          _ = (10 : ℚ) ^ m := by push_cast; ring
      have hrle : (1 / q : ℚ) ≤ (10 : ℚ) ^ m := by
        calc (1 / q : ℚ) ≤ (⌈(1 / q : ℚ)⌉ : ℚ) := Int.le_ceil _
          _ = (c : ℚ) := by rw [← hc]
          _ ≤ (10 : ℚ) ^ m := hcle
      have h2 : 1 ≤ q * (10 : ℚ) ^ m := by
        have := (div_le_iff₀ hq).mp hrle
        nlinarith
      rw [inv_eq_one_div, div_le_iff₀ hp]
      linarith
    · rw [hfval, show -(m : ℤ) + 1 = -((m - 1 : ℕ) : ℤ) by omega,
        qpow10_eq_zpow, zpow_neg, zpow_natCast]
      have hp' : (0 : ℚ) < (10 : ℚ) ^ (m - 1) := by positivity
      have hlt : (10 : ℚ) ^ (m - 1) < 1 / q := by
        have h1' : ((10 : ℤ) ^ (m - 1) : ℤ) ≤ c - 1 := by
          have : ((10 : ℕ) ^ (m - 1) : ℤ) ≤ ((c - 1).toNat : ℤ) := by exact_mod_cast hlo
          rw [hcn] at this
          exact_mod_cast this
        have h2' : ((c : ℚ) - 1) < 1 / q := by
          have := Int.ceil_lt_add_one (1 / q : ℚ)
          rw [← hc] at this
          linarith
        calc (10 : ℚ) ^ (m - 1) = (((10 : ℤ) ^ (m - 1) : ℤ) : ℚ) := by push_cast; ring
          _ ≤ ((c : ℚ) - 1) := by exact_mod_cast h1'
          _ < 1 / q := h2'
      have h3 : (10 : ℚ) ^ (m - 1) * q < 1 := (lt_div_iff₀ hq).mp hlt
      rw [inv_eq_one_div, lt_div_iff₀ hp']
      linarith

/-! ### Number-to-string (JS `String(number)` for finite decimals) -/

/-- Decimal digits of the fractional part `0 ≤ q < 1`, fuel-limited.
JS prints the shortest round-tripping decimal of a binary float; this
model prints the exact finite decimal expansion and truncates a
non-terminating expansion at 30 digits (such values already differ from
their float counterparts, which no claim depends on). -/
def fracDigits : ℕ → ℚ → String
  | 0, _ => ""
  | f + 1, q =>
    if q.num == 0 then ""
    else
      let q10 := qmul (Qi 10) q
      let d : ℤ := ⌊q10⌋
      toString d ++ fracDigits f (qsub q10 (Qi d))

/-- JS `String(n)` for a nonnegative finite number. -/
def jsStrNonneg (q : ℚ) : String :=
  let ip : ℤ := ⌊q⌋
  let fp := qsub q (Qi ip)
  if fp.num == 0 then toString ip else toString ip ++ "." ++ fracDigits 30 fp

/-- JS `String(n)` for a finite number. -/
def jsStrOfQ (q : ℚ) : String :=
  if q.num < 0 then "-" ++ jsStrNonneg (qsub (Qi 0) q) else jsStrNonneg q

/-! ### JS runtime values -/

/-- A JavaScript runtime value, as consumed and produced by the
normalizer: undefined, null, booleans, finite numbers, NaN, strings,
arrays and plain objects (field lists). -/
inductive JVal where
  | undef : JVal
  | jnull : JVal
  | jbool : Bool → JVal
  | jnum : ℚ → JVal
  | jnan : JVal
  | jstr : String → JVal
  | jarr : List JVal → JVal
  | jobj : List (String × JVal) → JVal

/-- JS truthiness. -/
def truthy : JVal → Bool
  | .undef => false
  | .jnull => false
  | .jbool b => b
  | .jnum q => q.num != 0
  | .jnan => false
  | .jstr s => !s.data.isEmpty
  | .jarr _ => true
  | .jobj _ => true

/-- First field with the given name (object literals have unique keys). -/
def getField : List (String × JVal) → String → JVal
  | [], _ => .undef
  | (k, v) :: rest, f => if k == f then v else getField rest f

/-- Property access on a value known not to be null/undefined (where it
would return undefined rather than throw).  Arrays and strings expose
`length`; other primitives have none of the accessed properties. -/
def jsGetT : JVal → String → JVal
  | .jobj fs, f => getField fs f
  | .jarr xs, f => if f == "length" then .jnum (Qi xs.length) else .undef
  | .jstr s, f => if f == "length" then .jnum (Qi s.length) else .undef
  | _, _ => JVal.undef

/-- Plain property access: throws on null/undefined receivers. -/
def jsGet : JVal → String → Except Unit JVal
  | .undef, _ => .error ()
  | .jnull, _ => .error ()
  | v, f => .ok (jsGetT v f)

/-- Optional-chaining access `v?.f`. -/
def jsOptGet : JVal → String → JVal
  | .undef, _ => .undef
  | .jnull, _ => .undef
  | v, f => jsGetT v f

/-- JS `a || b`. -/
def jsOr (a b : JVal) : JVal := if truthy a then a else b

/-- JS `a ?? b`. -/
def jsNullish : JVal → JVal → JVal
  | .undef, b => b
  | .jnull, b => b
  | a, _ => a

/-- Indexing `v[i]` on a value known not to be null/undefined. -/
def jsIndex : JVal → ℕ → JVal
  | .jarr xs, i => xs.getD i .undef
  | .jstr s, i =>
    match s.data.get? i with
    | some c => .jstr (String.mk [c])
    | none => .undef
  | _, _ => JVal.undef

/-- Join with commas (JS `Array.prototype.toString`). -/
def joinComma : List String → String
  | [] => ""
  | [s] => s
  | s :: rest => s ++ "," ++ joinComma rest

/-- JS `String(v)` (fuel-based recursion through arrays). -/
def jsToStringF : ℕ → JVal → String
  | _, .undef => "undefined"
  | _, .jnull => "null"
  | _, .jbool b => if b then "true" else "false"
  | _, .jnum q => jsStrOfQ q
  | _, .jnan => "NaN"
  | _, .jstr s => s
  | 0, .jarr _ => ""
  | 0, .jobj _ => ""
  | f + 1, .jarr xs =>
    joinComma (xs.map fun x =>
      match x with
      | .undef => ""
      | .jnull => ""
      | y => jsToStringF f y)
  | _ + 1, .jobj _ => "[object Object]"

/-- JS `String(v)`.  The fuel only limits array nesting depth (one
unit per nested array); 1000 levels is far beyond any payload the
program can receive. -/
def jsToString (v : JVal) : String := jsToStringF 1000 v

/-- Whitespace trim used by JS string-to-number coercion. -/
def trimWS (cs : List Char) : List Char :=
  ((cs.dropWhile fun c => c == ' ' || c == '\n' || c == '\t' || c == '\r').reverse.dropWhile
    fun c => c == ' ' || c == '\n' || c == '\t' || c == '\r').reverse

/-- Numeric value of a digit string. -/
def natVal (cs : List Char) : ℤ :=
  cs.foldl (fun acc c => acc * 10 + ((c.toNat : ℤ) - 48)) 0

/-- Parse an unsigned decimal literal (integer part, optional fraction). -/
def parseDec (cs : List Char) : Option ℚ :=
  let ipart := cs.takeWhile Char.isDigit
  let rest := cs.dropWhile Char.isDigit
  if ipart.isEmpty then none
  else
    match rest with
    | [] => some (Qi (natVal ipart))
    | '.' :: fpart =>
      if fpart.all Char.isDigit then
        some (qadd (Qi (natVal ipart)) (mkRat (natVal fpart) ((10 : ℕ) ^ fpart.length)))
      else none
    | _ => none

/-- JS `Number(string)`, restricted to plain decimal literals.
Exponents, hex and `Infinity` forms are not modelled (no claim depends
on coercing such strings). -/
def parseNum (s : String) : Option ℚ :=
  let cs := trimWS s.data
  if cs.isEmpty then some (Qi 0)
  else
    match cs with
    | '-' :: rest => (parseDec rest).map fun q => qsub (Qi 0) q
    | '+' :: rest => parseDec rest
    | _ => parseDec cs

/-- JS `ToNumber`; `none` is NaN. -/
def jsToNumber : JVal → Option ℚ
  | .undef => none
  | .jnull => some (Qi 0)
  | .jbool b => some (Qi (if b then 1 else 0))
  | .jnum q => some q
  | .jnan => none
  | .jstr s => parseNum s
  | .jarr xs => parseNum (jsToString (.jarr xs))
  | .jobj _ => none

/-- JS `ToPrimitive` as used by `+`: plain objects and arrays convert
through their default string form. -/
def toPrim : JVal → JVal
  | .jarr xs => .jstr (jsToString (.jarr xs))
  | .jobj fs => .jstr (jsToString (.jobj fs))
  | v => v

/-- JS `a + b` (string concatenation when either primitive is a string,
numeric addition with NaN propagation otherwise). -/
def jsAdd (a b : JVal) : JVal :=
  match toPrim a, toPrim b with
  | .jstr s, pb => .jstr (s ++ jsToString pb)
  | pa, .jstr s => .jstr (jsToString pa ++ s)
  | pa, pb =>
    match jsToNumber pa, jsToNumber pb with
    | some x, some y => .jnum (qadd x y)
    | _, _ => .jnan

/-- JS `a - b`. -/
def jsSub (a b : JVal) : JVal :=
  match jsToNumber a, jsToNumber b with
  | some x, some y => .jnum (qsub x y)
  | _, _ => .jnan

/-- JS `a * b`. -/
def jsMul (a b : JVal) : JVal :=
  match jsToNumber a, jsToNumber b with
  | some x, some y => .jnum (qmul x y)
  | _, _ => .jnan

/-- JS `a / b`.  A zero divisor yields an infinity or NaN in JS,
collapsed to NaN here; every division in the embedded code is guarded
by a positivity test on the divisor, so that branch is unreachable. -/
def jsDiv (a b : JVal) : JVal :=
  match jsToNumber a, jsToNumber b with
  | some x, some y => if y.num == 0 then .jnan else .jnum (qdiv x y)
  | _, _ => .jnan

/-- JS `a > b` (both-strings compare lexicographically; otherwise
numeric with NaN making the comparison false). -/
def jsGT (a b : JVal) : Bool :=
  match a, b with
  | .jstr s1, .jstr s2 => decide (s2 < s1)
  | a', b' =>
    match jsToNumber a', jsToNumber b' with
    | some x, some y => decide (y < x)
    | _, _ => false

/-- `x.toFixed(1)` on the result of an arithmetic expression. -/
def jsToFixed1 : JVal → String
  | .jnum q => toFixed1 q
  | .jnan => "NaN"
  | v => jsToString v

/-- JS `Math.round(v)`. -/
def mathRound (v : JVal) : JVal :=
  match jsToNumber v with
  | some q => .jnum (Qi (jsRoundQ q))
  | none => .jnan

/-- JS strict equality against a string literal. -/
def jsStrictEqStr : JVal → String → Bool
  | .jstr t, s => t == s
  | _, _ => false

/-- Does the second list start with the first? -/
def startsList : List Char → List Char → Bool
  | [], _ => true
  | _ :: _, [] => false
  | p :: ps, c :: cs => p == c && startsList ps cs

/-- Substring containment on char lists. -/
def containsList : List Char → List Char → Bool
  | [], pat => pat.isEmpty
  | c :: cs, pat => startsList pat (c :: cs) || containsList cs pat

/-- `v.includes(sub)`: defined for strings (substring test) and arrays
(membership); any other receiver throws a TypeError. -/
def jsIncludes (v : JVal) (sub : String) : Except Unit Bool :=
  match v with
  | .jstr t => .ok (containsList t.data sub.data)
  | .jarr xs =>
    .ok (xs.any fun x =>
      match x with
      | .jstr u => u == sub
      | _ => false)
  | _ => .error ()

/-- `v.startsWith(p)`: defined for strings only. -/
def jsStartsWith (v : JVal) (p : String) : Except Unit Bool :=
  match v with
  | .jstr t => .ok (startsList p.data t.data)
  | _ => .error ()

/-- `v.toUpperCase()`: defined for strings only. -/
def jsToUpperE (v : JVal) : Except Unit String :=
  match v with
  | .jstr s => .ok (String.mk (s.data.map Char.toUpper))
  | _ => .error ()

/-! ### Canonical record and exception-threading helpers -/

/-- One `{label, value}` entry of the canonical series. -/
structure SEntry where
  label : JVal
  value : JVal

/-- The canonical insight record returned by the normalizer
(`{ title, type, display, primaryValue, secondaryLabel, series }`). -/
structure Canon where
  title : JVal
  type : JVal
  display : JVal
  primaryValue : JVal
  secondaryLabel : JVal
  series : List SEntry

/-- The mutable locals of `parseInsightData`'s try block
(`primaryValue`, `secondaryLabel`, `series`); an exception carries the
state already assigned when it was thrown. -/
structure PartSt where
  primaryValue : JVal
  secondaryLabel : JVal
  series : List SEntry

/-- Initial values: `'—'`, `''`, `[]`. -/
def initSt : PartSt := ⟨.jstr "—", .jstr "", []⟩

/-- The surrounding `catch`: the state at the throw point (or the
completed state) is what the function continues with. -/
def runCatch {σ : Type} : Except σ σ → σ
  | .ok s => s
  | .error s => s

/-- `Array.prototype.map` with a callback that may throw. -/
def mapE {β : Type} (f : JVal → Except Unit β) : List JVal → Except Unit (List β)
  | [] => .ok []
  | x :: xs => do
    let b ← f x
    let bs ← mapE f xs
    .ok (b :: bs)

/-- `Array.prototype.map` with the element index. -/
def mapIdxE {β : Type} (f : ℕ → JVal → Except Unit β) :
    ℕ → List JVal → Except Unit (List β)
  | _, [] => .ok []
  | i, x :: xs => do
    let b ← f i x
    let bs ← mapIdxE f (i + 1) xs
    .ok (b :: bs)

/-- Pure indexed map. -/
def mapIdxP {α β : Type} (f : ℕ → α → β) : ℕ → List α → List β
  | _, [] => []
  | i, x :: xs => f i x :: mapIdxP f (i + 1) xs

/-- `Array.prototype.filter` with a callback that may throw. -/
def filterE (p : JVal → Except Unit Bool) : List JVal → Except Unit (List JVal)
  | [] => .ok []
  | x :: xs => do
    let b ← p x
    let rest ← filterE p xs
    .ok (if b then x :: rest else rest)

/-- `Array.prototype.reduce` with a callback that may throw. -/
def foldE {β : Type} (f : β → JVal → Except Unit β) (init : β) :
    List JVal → Except Unit β
  | [] => .ok init
  | x :: xs => do
    let b ← f init x
    foldE f b xs

/-- Stable insertion into a sorted list (equal keys keep input order). -/
def insSorted {α : Type} (le : α → α → Bool) (x : α) : List α → List α
  | [] => [x]
  | y :: ys => if le x y then x :: y :: ys else y :: insSorted le x ys

/-- Stable sort.  `Array.prototype.sort` is required to be stable, and
with a consistent comparator the stable-sorted output is unique, so any
stable sort models it exactly. -/
def sortStable {α : Type} (le : α → α → Bool) : List α → List α
  | [] => []
  | x :: xs => insSorted le x (sortStable le xs)

/-! ### Normalizer (posthog parse functions) -/

/-- `sumData(arr)`: `0` for non-arrays, else
`arr.reduce((sum, v) => sum + (v || 0), 0)`. -/
def sumData : JVal → JVal
  | .jarr xs => xs.foldl (fun acc x => jsAdd acc (jsOr x (.jnum (Qi 0)))) (.jnum (Qi 0))
  | _ => .jnum (Qi 0)

/-- `formatNumber(n)`: non-numbers pass through as their string form;
`>= 1e6` scales to `M`, `>= 1e3` to `K`, both via `toFixed(1)`; below
that, `String(num)`. -/
def formatNumber (n : JVal) : String :=
  match jsToNumber n with
  | none => jsToString n
  | some q =>
    if Qi 1000000 ≤ q then toFixed1 (qdiv q (Qi 1000000)) ++ "M"
    else if Qi 1000 ≤ q then toFixed1 (qdiv q (Qi 1000)) ++ "K"
    else jsStrOfQ q

/-- `insight.query.source?.kind || insight.query.kind || ''`. -/
def queryKind (query : JVal) : JVal :=
  jsOr (jsOptGet (jsGetT query "source") "kind") (jsOr (jsGetT query "kind") (.jstr ""))

/-- One `else if (kind.includes(A) || kind.includes(B)) type = R;`
probe: the second `includes` is evaluated only when the first is
false, and either call throws when `kind` is truthy without an
`includes` method.  The chained conditionals are this fold over the
ordered probe list; an exhausted list is the final `TRENDS` default. -/
def kindProbe (kind : JVal) : List (String × String × String) → Except Unit JVal
  | [] => .ok (.jstr "TRENDS")
  | (s1, s2, res) :: rest => do
    let b1 ← jsIncludes kind s1
    let b2 ← if b1 then pure true else jsIncludes kind s2
    if b2 then pure (.jstr res) else kindProbe kind rest

/-- The `else if (insight.query)` arm of type resolution. -/
def resolveTypeQuery (insight : JVal) : Except Unit JVal :=
  let query := jsGetT insight "query"
  if truthy query then
    kindProbe (queryKind query)
      [("Funnel", "funnel", "FUNNEL"), ("Retention", "retention", "RETENTION"),
       ("Path", "path", "PATHS"), ("Lifecycle", "lifecycle", "LIFECYCLE"),
       ("Stickiness", "stickiness", "STICKINESS")]
  else pure (.jstr "TRENDS")

/-- Type resolution: a truthy legacy `filters.insight` wins verbatim;
else the modern `query` kinds; else `'TRENDS'`. -/
def resolveType (insight : JVal) : Except Unit JVal := do
  let filters ← jsGet insight "filters"
  if truthy filters then
    let fi := jsGetT filters "insight"
    if truthy fi then pure fi else resolveTypeQuery insight
  else resolveTypeQuery insight

/-- Display-variant resolution (first truthy wins, else `''`). -/
def resolveDisplay (insight : JVal) : JVal :=
  jsOr (jsOptGet (jsGetT insight "filters") "display")
    (jsOr (jsOptGet (jsOptGet (jsGetT insight "query") "trendsFilter") "display")
      (jsOr
        (jsOptGet (jsOptGet (jsOptGet (jsGetT insight "query") "source") "trendsFilter")
          "display")
        (jsOr (jsOptGet (jsOptGet (jsGetT insight "query") "chartSettings") "display")
          (.jstr ""))))

/-- `insight.result ?? insight.query_status?.results`. -/
def resolveResult (insight : JVal) : JVal :=
  jsNullish (jsGetT insight "result") (jsOptGet (jsGetT insight "query_status") "results")

/-- `s.count ?? sumData(s.data) ?? 0`. -/
def countOrSum (s : JVal) : Except Unit JVal := do
  let c ← jsGet s "count"
  match c with
  | .undef => do
    let d ← jsGet s "data"
    pure (jsNullish (sumData d) (.jnum (Qi 0)))
  | .jnull => do
    let d ← jsGet s "data"
    pure (jsNullish (sumData d) (.jnum (Qi 0)))
  | c' => pure c'

/-- `first.count ?? sumData(first.data)` (no trailing `?? 0`). -/
def countOrSumND (s : JVal) : Except Unit JVal := do
  let c ← jsGet s "count"
  match c with
  | .undef => do
    let d ← jsGet s "data"
    pure (sumData d)
  | .jnull => do
    let d ← jsGet s "data"
    pure (sumData d)
  | c' => pure c'

/-- One fallible step inside the try block: an exception aborts with
the state already assigned; success continues. -/
def orSt {α β γ : Type} (e : Except Unit α) (st : β) (k : α → Except β γ) : Except β γ :=
  match e with
  | .error _ => .error st
  | .ok v => k v

theorem orSt_ok {α β γ : Type} (v : α) (st : β) (k : α → Except β γ) :
    orSt (.ok v) st k = k v := rfl

theorem orSt_err {α β γ : Type} (st : β) (k : α → Except β γ) :
    orSt (.error ()) st k = .error st := rfl

/-- The TRENDS / LIFECYCLE / STICKINESS arm of the try block.  The
`isBar` flag (`display.startsWith('ActionsBar') || ...`) is evaluated
for its possible TypeError, but the bar and line branches build the
same zipped series, so it does not change the produced state. -/
def trendsBranch (display result : JVal) (st : PartSt) : Except PartSt PartSt :=
  match result with
  | .jarr items =>
    if items.length == 0 then .ok st
    else if jsStrictEqStr display "BoldNumber" then
      orSt (foldE (fun acc s => (countOrSum s).map (jsAdd acc)) (.jnum (Qi 0)) items) st
        fun total =>
          let st1 := { st with primaryValue := .jstr (formatNumber total) }
          orSt (jsGet (items.headD .undef) "label") st1 fun lab =>
            .ok { st1 with secondaryLabel := jsOr lab (.jstr "") }
    else if jsStrictEqStr display "ActionsPie" then
      orSt (mapE (fun s => do
          let lab ← jsGet s "label"
          let lab2 ←
            if truthy lab then pure lab
            else do
              let nm ← jsGet s "name"
              pure (jsOr nm (.jstr ""))
          let v ← countOrSum s
          pure (⟨lab2, v⟩ : SEntry)) items) st fun entries =>
        let total := entries.foldl (fun acc e => jsAdd acc e.value) (.jnum (Qi 0))
        .ok { st with
          series := entries
          primaryValue := .jstr (formatNumber total)
          secondaryLabel := .jstr (toString entries.length ++ " series") }
    else
      orSt (jsStartsWith display "ActionsBar") st fun _ =>
        let first := items.headD .undef
        orSt (countOrSumND first) st fun pv =>
          let st1 := { st with primaryValue := .jstr (formatNumber pv) }
          orSt (jsGet first "label") st1 fun lab =>
            let st2 := { st1 with secondaryLabel := jsOr lab (.jstr "") }
            orSt (jsGet first "data") st2 fun dataV =>
              match jsOr dataV (.jarr []) with
              | .jarr vs =>
                let labelsV := jsOr (jsGetT first "labels") (.jarr [])
                .ok { st2 with
                  series := mapIdxP (fun i v => ⟨jsOr (jsIndex labelsV i) (.jstr ""), v⟩) 0 vs }
              | _ => .error st2
  | _ => .ok st

/-- The FUNNEL arm. -/
def funnelBranch (result : JVal) (st : PartSt) : Except PartSt PartSt :=
  match result with
  | .jarr steps =>
    if 2 ≤ steps.length then
      let first := steps.headD .undef
      let last := steps.getLastD .undef
      orSt (jsGet first "count") st fun fc =>
        let rateE : Except PartSt String :=
          if jsGT fc (.jnum (Qi 0)) then
            orSt (jsGet last "count") st fun lc =>
              orSt (jsGet first "count") st fun fc2 =>
                .ok (jsToFixed1 (jsMul (jsDiv lc fc2) (.jnum (Qi 100))))
          else .ok "0"
        Except.bind rateE fun rate =>
          let st1 := { st with primaryValue := .jstr (rate ++ "%") }
          orSt (jsGet first "name") st1 fun fn =>
            orSt (jsGet last "name") st1 fun ln =>
              let st2 := { st1 with
                secondaryLabel := .jstr (jsToString fn ++ " → " ++ jsToString ln) }
              orSt (mapE (fun s => do
                  let n ← jsGet s "name"
                  let c ← jsGet s "count"
                  pure (⟨n, c⟩ : SEntry)) steps) st2 fun entries =>
                .ok { st2 with series := entries }
    else .ok st
  | _ => .ok st

/-- The RETENTION arm. -/
def retentionBranch (result : JVal) (st : PartSt) : Except PartSt PartSt :=
  match result with
  | .jarr cohorts =>
    if 0 < cohorts.length then
      let latest := cohorts.headD .undef
      orSt (jsGet latest "values") st fun valsV =>
        let e0 :=
          match valsV with
          | .undef => JVal.undef
          | .jnull => JVal.undef
          | w => jsIndex w 0
        let c0 :=
          match e0 with
          | .undef => JVal.undef
          | .jnull => JVal.undef
          | w => jsGetT w "count"
        let day0 := jsOr c0 (.jnum (Qi 0))
        match jsOr valsV (.jarr []) with
        | .jarr vs =>
          orSt (mapIdxE (fun i v => do
              let value ←
                if jsGT day0 (.jnum (Qi 0)) then do
                  let c ← jsGet v "count"
                  pure (mathRound (jsMul (jsDiv c day0) (.jnum (Qi 100))))
                else pure (JVal.jnum (Qi 0))
              pure (⟨.jstr ("Day " ++ toString i), value⟩ : SEntry)) 0 vs) st fun entries =>
            let st1 := { st with series := entries }
            if 1 < entries.length then
              .ok { st1 with
                primaryValue := jsAdd (entries.getD 1 ⟨.undef, .undef⟩).value (.jstr "%")
                secondaryLabel := .jstr "Day 1 retention" }
            else
              .ok { st1 with
                primaryValue := .jstr (formatNumber day0)
                secondaryLabel := .jstr "Retained (Day 0)" }
        | _ => .error st
    else .ok st
  | _ => .ok st

/-- `b.edge_weight || b.count || 0` — the sort key of a path edge.
Elements reaching the comparator passed the source/target filter, so
they are not null/undefined and plain access cannot throw. -/
def pathKey (p : JVal) : JVal :=
  jsOr (jsGetT p "edge_weight") (jsOr (jsGetT p "count") (.jnum (Qi 0)))

/-- `a` may stay before `b` under the comparator
`(b.edge_weight || b.count || 0) - (a.edge_weight || a.count || 0)`
(ascending in the comparator means descending by key; a NaN comparator
value is treated as 0 by `Array.prototype.sort`). -/
def pathLe (a b : JVal) : Bool :=
  match jsSub (pathKey b) (pathKey a) with
  | .jnum q => decide (q ≤ Qi 0)
  | _ => true

/-- The PATHS arm. -/
def pathsBranch (result : JVal) (st : PartSt) : Except PartSt PartSt :=
  let pv :=
    match result with
    | .jarr xs => JVal.jstr (formatNumber (.jnum (Qi xs.length)))
    | _ => JVal.jstr "—"
  let st1 := { st with primaryValue := pv, secondaryLabel := .jstr "total paths" }
  let base :=
    match result with
    | .jarr xs => xs
    | _ => ([] : List JVal)
  orSt (filterE (fun p => do
      let s ← jsGet p "source"
      if truthy s then do
        let t ← jsGet p "target"
        pure (truthy t)
      else pure false) base) st1 fun kept =>
    let top := (sortStable pathLe kept).take 6
    orSt (mapE (fun p => do
        let s ← jsGet p "source"
        let t ← jsGet p "target"
        let wv ← jsGet p "edge_weight"
        let value ←
          if truthy wv then pure wv
          else do
            let cv ← jsGet p "count"
            pure (jsOr cv (.jnum (Qi 0)))
        pure (⟨.jstr (jsToString s ++ " → " ++ jsToString t), value⟩ : SEntry)) top) st1
      fun entries => .ok { st1 with series := entries }

/-- The generic fallback arm. -/
def genericBranch (result : JVal) (st : PartSt) : Except PartSt PartSt :=
  match result with
  | .jarr items =>
    if 0 < items.length then
      let first := items.headD .undef
      orSt (jsGet first "count") st fun c =>
        let vE : Except Unit JVal :=
          match c with
          | .undef => (jsGet first "aggregated_value").map fun a => jsNullish a (.jnum (Qi 0))
          | .jnull => (jsGet first "aggregated_value").map fun a => jsNullish a (.jnum (Qi 0))
          | c' => .ok c'
        orSt vE st fun v =>
          let st1 := { st with primaryValue := .jstr (formatNumber v) }
          orSt (jsGet first "label") st1 fun lab =>
            .ok { st1 with secondaryLabel := jsOr lab (.jstr "") }
    else .ok st
  | _ => .ok st

/-- Steps 5–6 of the normalizer inside `try { ... } catch`: the state
assigned before a caught exception is kept. -/
def tryExtract (ty display result : JVal) : PartSt :=
  runCatch
    (if jsStrictEqStr ty "TRENDS" || jsStrictEqStr ty "LIFECYCLE" ||
        jsStrictEqStr ty "STICKINESS" then
      trendsBranch display result initSt
    else if jsStrictEqStr ty "FUNNEL" then funnelBranch result initSt
    else if jsStrictEqStr ty "RETENTION" then retentionBranch result initSt
    else if jsStrictEqStr ty "PATHS" then pathsBranch result initSt
    else genericBranch result initSt)

/-- `parseInsightData(title, insight)`.  Throws (escapes to the caller)
only from the pre-try region: property access on a null/undefined
insight, or `kind.includes` on a truthy kind without that method. -/
def parseInsightData (title insight : JVal) : Except Unit Canon :=
  match insight with
  | .undef => .error ()
  | .jnull => .error ()
  | _ =>
    match resolveType insight with
    | .error () => .error ()
    | .ok ty =>
      let display := resolveDisplay insight
      let result := resolveResult insight
      let st := tryExtract ty display result
      .ok ⟨title, ty, display, st.primaryValue, st.secondaryLabel, st.series⟩

/-- `parseInsight(insight)`. -/
def parseInsight (insight : JVal) : Except Unit Canon :=
  match jsGet insight "name" with
  | .error () => .error ()
  | .ok nm =>
    let title := jsOr nm (jsOr (jsGetT insight "derived_name") (.jstr "PostHog Insight"))
    parseInsightData title insight

/-- `parseDashboard(dashboard)`. -/
def parseDashboard (dashboard : JVal) : Except Unit Canon :=
  match jsGet dashboard "name" with
  | .error () => .error ()
  | .ok nm =>
    let title := jsOr nm (.jstr "PostHog Dashboard")
    match jsOr (jsGetT dashboard "tiles") (.jarr []) with
    | .jarr ts =>
      match filterE (fun t => do
          let ins ← jsGet t "insight"
          if truthy ins then
            pure (truthy (jsNullish (jsGetT ins "result")
              (jsOptGet (jsGetT ins "query_status") "results")))
          else pure false) ts with
      | .error () => .error ()
      | .ok kept =>
        match kept with
        | [] => .ok ⟨title, .jstr "empty", .undef, .jstr "—", .jstr "", []⟩
        | tile :: _ =>
          let ins := jsGetT tile "insight"
          let ititle := jsOr (jsGetT ins "name") (jsOr (jsGetT ins "derived_name") title)
          parseInsightData ititle ins
    | _ => .error ()

/-! ### Markup helpers (esc, truncate, formatType, axis utilities) -/

/-- The quote character. -/
def quoteC : Char := Char.ofNat 34

/-- The apostrophe character. -/
def aposC : Char := Char.ofNat 39

/-- `.replace(/&/g, '&amp;')`. -/
def escAmp : List Char → List Char
  | [] => []
  | c :: cs => (if c = '&' then "&amp;".data else [c]) ++ escAmp cs

/-- `.replace(/</g, '&lt;')`. -/
def escLt : List Char → List Char
  | [] => []
  | c :: cs => (if c = '<' then "&lt;".data else [c]) ++ escLt cs

/-- `.replace(/>/g, '&gt;')`. -/
def escGt : List Char → List Char
  | [] => []
  | c :: cs => (if c = '>' then "&gt;".data else [c]) ++ escGt cs

/-- `.replace(/"/g, '&quot;')`. -/
def escQuot : List Char → List Char
  | [] => []
  | c :: cs => (if c = quoteC then "&quot;".data else [c]) ++ escQuot cs

/-- `.replace(/'/g, '&#39;')`. -/
def escApos : List Char → List Char
  | [] => []
  | c :: cs => (if c = aposC then "&#39;".data else [c]) ++ escApos cs

/-- `esc` applied to a value already known to be a string. -/
def escS (s : String) : String :=
  String.mk (escApos (escQuot (escGt (escLt (escAmp s.data)))))

/-- `esc(str)`: `String(str)` with the five reserved markup characters
replaced by entities, in the source order (`&` first). -/
def esc (v : JVal) : String := escS (jsToString v)

/-- `truncate(str, len)`. -/
def truncate (v : JVal) (len : ℕ) : String :=
  let s := jsToString v
  if len < s.data.length then String.mk (s.data.take (len - 1)) ++ "…" else s

/-- The type-name lookup object of `formatType`. -/
def typeNames : List (String × String) :=
  [("TRENDS", "Trends"), ("FUNNEL", "Funnel"), ("RETENTION", "Retention"),
   ("PATHS", "Paths"), ("LIFECYCLE", "Lifecycle"), ("STICKINESS", "Stickiness")]

/-- Association-list lookup. -/
def lookupStr : List (String × String) → String → Option String
  | [], _ => none
  | (k, v) :: rest, f => if k == f then some v else lookupStr rest f

/-- `formatType(type, display)`: display-variant overrides, then the
name table indexed by `String(type)`, then `type || 'Insight'`. -/
def formatType (ty display : JVal) : JVal :=
  if jsStrictEqStr display "BoldNumber" then .jstr "Big number"
  else if jsStrictEqStr display "ActionsPie" then .jstr "Pie chart"
  else if jsStrictEqStr display "ActionsBar" || jsStrictEqStr display "ActionsUnstackedBar" ||
      jsStrictEqStr display "ActionsStackedBar" || jsStrictEqStr display "ActionsBarValue" then
    .jstr "Bar chart"
  else if jsStrictEqStr display "ActionsAreaGraph" then .jstr "Area chart"
  else
    let m : JVal :=
      match lookupStr typeNames (jsToString ty) with
      | some s => .jstr s
      | none => .undef
    jsOr m (jsOr ty (.jstr "Insight"))

/-- `seriesDateRange(series)`. -/
def seriesDateRange (series : List SEntry) : String :=
  if series.length < 2 then ""
  else
    let first := (series.headD ⟨.undef, .undef⟩).label
    let last := (series.getLastD ⟨.undef, .undef⟩).label
    if truthy first && truthy last then jsToString first ++ " – " ++ jsToString last else ""

/-- Order-preserving duplicate removal (`[...new Set(idxs)]`). -/
def dedupKeep : List ℕ → List ℕ → List ℕ
  | _, [] => []
  | seen, x :: xs => if seen.contains x then dedupKeep seen xs else x :: dedupKeep (x :: seen) xs

/-- `evenlySpaced(total, count)`. -/
def evenlySpaced (total count : ℕ) : List ℕ :=
  if total ≤ count then List.range total
  else
    let mids := (List.range (count - 2)).map fun j =>
      (jsRoundQ (qmul (qdiv (Qi (j + 1)) (Qi (count - 1))) (Qi (total - 1)))).toNat
    dedupKeep [] ((0 :: mids) ++ [total - 1])

/-- The `{ticks, axisMax}` result of `niceYAxis`.  Tick values are the
`Math.round`ed integers the source pushes. -/
structure Axis where
  ticks : List ℤ
  axisMax : ℚ

/-- The nice-step ladder `[1, 2, 2.5, 5, 10]`. -/
def ladder : List ℚ := [Qi 1, Qi 2, mkRat 5 2, Qi 5, Qi 10]

/-- `magnitude * ([1,2,2.5,5,10].find(s => s*magnitude >= roughStep) || 1)`. -/
def niceStep (rawMax : ℚ) : ℚ :=
  let roughStep := qdiv rawMax (Qi 4)
  let magnitude := qpow10 (floorLog10 roughStep)
  qmul magnitude ((ladder.find? fun s => decide (roughStep ≤ qmul s magnitude)).getD (Qi 1))

/-- `for (let t = 0; t <= limit; t += step) ticks.push(Math.round(t))`,
fuel-bounded (the caller passes fuel exceeding the iteration count). -/
def tickLoop (step limit : ℚ) : ℕ → ℚ → List ℤ
  | 0, _ => []
  | f + 1, t => if t ≤ limit then jsRoundQ t :: tickLoop step limit f (qadd t step) else []

/-- `niceYAxis(rawMax)`. -/
def niceYAxis (rawMax : ℚ) : Axis :=
  if rawMax ≤ Qi 0 then ⟨[0], Qi 1⟩
  else
    let step := niceStep rawMax
    let axisMax := qmul (Qi ⌈qdiv rawMax step⌉) step
    ⟨tickLoop step (qadd axisMax (qmul step (mkRat 1 100))) (⌈qdiv rawMax step⌉.toNat + 2) 0,
     axisMax⟩

/-- `formatAxisNum(n)`: like `formatNumber` but the decimal is dropped
when the number is an exact multiple of the scale divisor
(`num % 1_000_000 === 0` is equivalent to `num / 1_000_000` being an
integer, i.e. having denominator 1). -/
def formatAxisNum (n : JVal) : String :=
  match jsToNumber n with
  | none => jsToString n
  | some q =>
    if Qi 1000000 ≤ q then
      (if (qdiv q (Qi 1000000)).den == 1 then toFixed0 (qdiv q (Qi 1000000))
       else toFixed1 (qdiv q (Qi 1000000))) ++ "M"
    else if Qi 1000 ≤ q then
      (if (qdiv q (Qi 1000)).den == 1 then toFixed0 (qdiv q (Qi 1000))
       else toFixed1 (qdiv q (Qi 1000))) ++ "K"
    else jsStrOfQ q

/-! ### Chart renderers -/

/-- The CSS font stack constant. -/
def FONT : String := "-apple-system, BlinkMacSystemFont, 'Segoe UI', sans-serif"

/-- Join with single spaces. -/
def joinSpace : List String → String
  | [] => ""
  | [s] => s
  | s :: rest => s ++ " " ++ joinSpace rest

/-- Join with a separator. -/
def joinWith (sep : String) : List String → String
  | [] => ""
  | [s] => s
  | s :: rest => s ++ sep ++ joinWith sep rest

/-- NaN-propagating numbers (the float values flowing through the
renderers; `none` is NaN). -/
def qnAdd (a b : Option ℚ) : Option ℚ :=
  match a, b with
  | some x, some y => some (qadd x y)
  | _, _ => none

/-- NaN-propagating subtraction. -/
def qnSub (a b : Option ℚ) : Option ℚ :=
  match a, b with
  | some x, some y => some (qsub x y)
  | _, _ => none

/-- NaN-propagating multiplication. -/
def qnMul (a b : Option ℚ) : Option ℚ :=
  match a, b with
  | some x, some y => some (qmul x y)
  | _, _ => none

/-- NaN-propagating division (zero divisors are guarded at call sites). -/
def qnDiv (a b : Option ℚ) : Option ℚ :=
  match a, b with
  | some x, some y => if y.num == 0 then none else some (qdiv x y)
  | _, _ => none

/-- `toFixed(1)` on a possibly-NaN value. -/
def toFixed1QN : Option ℚ → String
  | some q => toFixed1 q
  | none => "NaN"

/-- A series entry's value as the number used by the coordinate math. -/
def vNum (e : SEntry) : Option ℚ := jsToNumber e.value

/-- `Math.max(...values)` (NaN-propagating; the empty case cannot occur
because every caller requires at least two points). -/
def listMaxQN : List (Option ℚ) → Option ℚ
  | [] => some (Qi 0)
  | [v] => v
  | v :: rest =>
    match v, listMaxQN rest with
    | some x, some y => some (if x ≤ y then y else x)
    | _, _ => none

/-- `niceYAxis(Math.max(...))` when the maximum may be NaN: `NaN <= 0`
is false, every derived quantity is NaN, and the tick loop condition
`0 <= NaN + ...` is false, so the ticks stay empty. -/
def niceYAxisJ : Option ℚ → List ℤ × Option ℚ
  | some q => ((niceYAxis q).ticks, some (niceYAxis q).axisMax)
  | none => ([], none)

/-- `(axisMax || 1)`: NaN and 0 are falsy. -/
def axisDenom : Option ℚ → ℚ
  | some a => if a.num == 0 then Qi 1 else a
  | none => Qi 1

/-- `renderEmptyChart()` — the empty-state fragment. -/
def renderEmptyChart : String :=
  "<div style=\"flex:1;display:flex;align-items:center;justify-content:center;opacity:0.25;\">\n  <span style=\"font-size:12px;letter-spacing:0.07em;text-transform:uppercase;\n               font-family:" ++ FONT ++ ";\">No chart data</span>\n</div>"

/-- `renderBigNumber(primaryValue, secondaryLabel)`. -/
def renderBigNumber (primaryValue secondaryLabel : JVal) : String :=
  "<div style=\"flex:1;display:flex;flex-direction:column;align-items:center;\n                      justify-content:center;text-align:center;padding:0 24px;\">\n  <div style=\"font-size:72px;font-weight:700;letter-spacing:-2px;line-height:1;\n              font-variant-numeric:tabular-nums;\">" ++
  escS (jsToString primaryValue) ++ "</div>\n  " ++
  (if truthy secondaryLabel then
    "<div style=\"margin-top:14px;font-size:14px;opacity:0.45;\n                                  letter-spacing:0.03em;\">" ++
      esc secondaryLabel ++ "</div>"
   else "") ++ "\n</div>"

/-- `renderFunnelChart(series)`.  `VW = 760`, `rowH = 36`,
`labelW = 200`, `barMaxW = 480`, row pitch `rowH + 8 = 44`.  The
`y + rowH * 0.65` text offset is computed exactly (`23.4`) where the
float product is `23.400000000000002`; no claim depends on it. -/
def renderFunnelChart (series : List SEntry) : String :=
  let maxVal := jsOr (series.headD ⟨.undef, .undef⟩).value (.jnum (Qi 1))
  let vh : ℕ := min (series.length * 44 + 10) 240
  let rows := mapIdxP (fun i step =>
    let pct :=
      if jsGT maxVal (.jnum (Qi 0)) then
        jsToFixed1 (jsMul (jsDiv step.value maxVal) (.jnum (Qi 100)))
      else "0"
    let barW := jsMul (jsDiv step.value maxVal) (.jnum (Qi 480))
    let y := i * 44
    let yText := jsStrOfQ (qadd (Qi (i * 44)) (mkRat 234 10))
    let safeLabel := escS (truncate (jsOr step.label (.jstr ("Step " ++ toString (i + 1)))) 28)
    let countStr := escS (formatAxisNum step.value)
    "\n  <!-- Step " ++ toString (i + 1) ++ " -->\n  <text x=\"0\" y=\"" ++ yText ++
    "\" dominant-baseline=\"auto\"\n        style=\"font-size:12px;fill:black;font-family:" ++
    FONT ++ ";\">" ++ safeLabel ++ "</text>\n  <rect x=\"200\" y=\"" ++ toString (y + 4) ++
    "\" width=\"" ++ jsToFixed1 barW ++ "\" height=\"28\"\n        fill=\"black\" opacity=\"" ++
    (if i == 0 then "0.85" else "0.55") ++ "\" rx=\"2\"/>\n  <text x=\"" ++
    jsStrOfQ (match jsToNumber (jsAdd (.jnum (Qi 208)) barW) with
      | some q => q
      | none => Qi 0) ++ "\" y=\"" ++ yText ++
    "\" dominant-baseline=\"auto\"\n        style=\"font-size:11px;fill:black;opacity:0.7;font-family:monospace;\"\n        >" ++
    countStr ++ " (" ++ pct ++ "%)</text>") 0 series
  "<svg viewBox=\"0 0 760 " ++ toString vh ++
  "\" width=\"100%\" height=\"100%\"\n     xmlns=\"http://www.w3.org/2000/svg\" preserveAspectRatio=\"xMinYMin meet\"\n     style=\"display:block;overflow:visible;\">\n  " ++
  String.join rows ++ "\n</svg>"

/-- `renderPathsList(series, totalCount)`. -/
def renderPathsList (series : List SEntry) (totalCount : JVal) : String :=
  let rows := mapIdxP (fun i p =>
    let bg := if i % 2 == 0 then "background:rgba(0,0,0,0.03);" else ""
    "<div style=\"display:flex;align-items:center;gap:10px;padding:7px 8px;\n                        border-radius:4px;" ++
    bg ++ "\">\n      <span style=\"font-size:11px;opacity:0.35;font-variant-numeric:tabular-nums;\n                   min-width:16px;text-align:right;\">" ++
    toString (i + 1) ++
    "</span>\n      <span style=\"flex:1;font-size:12px;overflow:hidden;text-overflow:ellipsis;\n                   white-space:nowrap;\">" ++
    escS (truncate p.label 60) ++
    "</span>\n      <span style=\"font-size:11px;font-family:monospace;opacity:0.6;\n                   white-space:nowrap;\">" ++
    escS (formatAxisNum p.value) ++ "</span>\n    </div>") 0 series
  "<div style=\"flex:1;display:flex;flex-direction:column;gap:0;overflow:hidden;\">\n  <div style=\"font-size:11px;opacity:0.4;text-transform:uppercase;letter-spacing:0.07em;\n              margin-bottom:6px;padding:0 8px;\">Top paths · " ++
  escS (jsToString totalCount) ++ " total</div>\n  " ++ String.join rows ++ "\n</div>"

/-- `renderLineChart(series)`.  `VW=760 VH=240 padT=10 padB=26 padL=52
padR=8`, so `innerW=700`, `innerH=204`. -/
def renderLineChart (series : List SEntry) : String :=
  let values := series.map vNum
  let labels := series.map SEntry.label
  let axis := niceYAxisJ (listMaxQN values)
  let n := values.length
  let xOf : ℕ → ℚ := fun i => qadd (Qi 52) (qmul (qdiv (Qi i) (Qi (max (n - 1) 1))) (Qi 700))
  let denom := axisDenom axis.2
  let yOf : Option ℚ → Option ℚ := fun v =>
    match v with
    | some q => some (qsub (qadd (Qi 10) (Qi 204)) (qmul (qdiv q denom) (Qi 204)))
    | none => none
  let baseY := toFixed1QN (yOf (some (Qi 0)))
  let areaD := joinSpace
    (("M " ++ toFixed1 (xOf 0) ++ "," ++ baseY) ::
      (mapIdxP (fun i v => "L " ++ toFixed1 (xOf i) ++ "," ++ toFixed1QN (yOf v)) 0 values ++
        ["L " ++ toFixed1 (xOf (n - 1)) ++ "," ++ baseY, "Z"]))
  let linePts := joinSpace
    (mapIdxP (fun i v => toFixed1 (xOf i) ++ "," ++ toFixed1QN (yOf v)) 0 values)
  let yAxisSvg := joinWith "\n  " (axis.1.map fun tick =>
    let y := toFixed1QN (yOf (some (Qi tick)))
    "<line x1=\"52\" y1=\"" ++ y ++ "\" x2=\"752\" y2=\"" ++ y ++
    "\"\n        stroke=\"black\" stroke-width=\"0.5\" opacity=\"0.15\"/>\n  <text x=\"46\" y=\"" ++
    y ++ "\" text-anchor=\"end\" dominant-baseline=\"middle\"\n        style=\"font-size:10px;fill:black;opacity:0.45;font-family:monospace;\"\n        >" ++
    escS (formatAxisNum (.jnum (Qi tick))) ++ "</text>")
  let xIdxs := evenlySpaced n (min n 6)
  let xAxisSvg := String.join (xIdxs.map fun i =>
    let anchor := if i == 0 then "start" else if i == n - 1 then "end" else "middle"
    "<text x=\"" ++ toFixed1 (xOf i) ++ "\" y=\"236\" text-anchor=\"" ++ anchor ++
    "\"\n      style=\"font-size:10px;fill:black;opacity:0.4;font-family:monospace;\"\n      >" ++
    esc (jsOr (labels.getD i .undef) (.jstr "")) ++ "</text>")
  "<svg viewBox=\"0 0 760 240\" width=\"100%\" height=\"100%\"\n     xmlns=\"http://www.w3.org/2000/svg\" preserveAspectRatio=\"xMidYMid meet\"\n     style=\"display:block;overflow:visible;\">\n\n  " ++
  yAxisSvg ++ "\n\n  <path d=\"" ++ areaD ++
  "\" fill=\"black\" fill-opacity=\"0.06\"/>\n\n  <polyline points=\"" ++ linePts ++
  "\"\n    fill=\"none\" stroke=\"black\" stroke-width=\"2.5\"\n    stroke-linejoin=\"round\" stroke-linecap=\"round\"/>\n\n  <circle cx=\"" ++
  toFixed1 (xOf (n - 1)) ++ "\" cy=\"" ++ toFixed1QN (yOf (values.getD (n - 1) none)) ++
  "\"\n    r=\"4\" fill=\"black\"/>\n\n  <line x1=\"52\" y1=\"" ++ baseY ++
  "\" x2=\"752\" y2=\"" ++ baseY ++
  "\"\n        stroke=\"black\" stroke-width=\"1\" opacity=\"0.2\"/>\n\n  " ++ xAxisSvg ++
  "\n\n</svg>"

/-- `renderBarChart(series)`.  Same canvas as the line chart;
`barW = Math.max(2, Math.floor((innerW / n) * 0.72))`, the remaining
width becomes the uniform gap. -/
def renderBarChart (series : List SEntry) : String :=
  let values := series.map vNum
  let labels := series.map SEntry.label
  let axis := niceYAxisJ (listMaxQN values)
  let n := values.length
  let barW : ℤ := max 2 ⌊qmul (qdiv (Qi 700) (Qi n)) (mkRat 72 100)⌋
  let gap : ℚ := qdiv (qsub (Qi 700) (Qi (barW * n))) (Qi (max (n - 1) 1))
  let xOf : ℕ → ℚ := fun i => qadd (Qi 52) (qmul (Qi i) (qadd (Qi barW) gap))
  let denom := axisDenom axis.2
  let yOf : Option ℚ → Option ℚ := fun v =>
    match v with
    | some q => some (qsub (qadd (Qi 10) (Qi 204)) (qmul (qdiv q denom) (Qi 204)))
    | none => none
  let barsSvg := joinWith "\n  " (mapIdxP (fun i v =>
    let y := yOf v
    let h := match qnSub (some (Qi 214)) y with
      | some q => if q ≤ Qi 1 then some (Qi 1) else some q
      | none => none
    "<rect x=\"" ++ toFixed1 (xOf i) ++ "\" y=\"" ++ toFixed1QN y ++ "\" width=\"" ++
    toString barW ++ "\" height=\"" ++ toFixed1QN h ++
    "\"\n        fill=\"black\" opacity=\"0.75\" rx=\"1\"/>") 0 values)
  let yAxisSvg := joinWith "\n  " (axis.1.map fun tick =>
    let y := toFixed1QN (yOf (some (Qi tick)))
    "<line x1=\"52\" y1=\"" ++ y ++ "\" x2=\"752\" y2=\"" ++ y ++
    "\"\n        stroke=\"black\" stroke-width=\"0.5\" opacity=\"0.15\"/>\n  <text x=\"46\" y=\"" ++
    y ++ "\" text-anchor=\"end\" dominant-baseline=\"middle\"\n        style=\"font-size:10px;fill:black;opacity:0.45;font-family:monospace;\"\n        >" ++
    escS (formatAxisNum (.jnum (Qi tick))) ++ "</text>")
  let xIdxs := evenlySpaced n (min n 6)
  let xAxisSvg := String.join (xIdxs.map fun i =>
    let anchor := if i == 0 then "start" else if i == n - 1 then "end" else "middle"
    "<text x=\"" ++ toFixed1 (qadd (xOf i) (qdiv (Qi barW) (Qi 2))) ++
    "\" y=\"236\" text-anchor=\"" ++ anchor ++
    "\"\n      style=\"font-size:10px;fill:black;opacity:0.4;font-family:monospace;\"\n      >" ++
    esc (jsOr (labels.getD i .undef) (.jstr "")) ++ "</text>")
  "<svg viewBox=\"0 0 760 240\" width=\"100%\" height=\"100%\"\n     xmlns=\"http://www.w3.org/2000/svg\" preserveAspectRatio=\"xMidYMid meet\"\n     style=\"display:block;overflow:visible;\">\n\n  " ++
  yAxisSvg ++ "\n\n  " ++ barsSvg ++ "\n\n  <line x1=\"52\" y1=\"214\" x2=\"752\" y2=\"214\"\n        stroke=\"black\" stroke-width=\"1\" opacity=\"0.2\"/>\n\n  " ++
  xAxisSvg ++ "\n\n</svg>"

/-- Placeholder text for a pie-arc coordinate.  The source computes
`CX + R * Math.cos(angle)` etc. with real trigonometric functions,
which have no computable rational embedding; the coordinate text is
therefore not modelled.  No claim depends on the pie fragment's arc
geometry; the large-arc flags, percentages and legend are exact. -/
def trigCoordText : String := "0.00"

/-- `renderPieChart(series)`: donut arcs (geometry via
`trigCoordText`), then a legend of up to 6 items with the shared
opacity palette and exact percentages. -/
def renderPieChart (series : List SEntry) : String :=
  let total := jsOr (series.foldl (fun acc e => jsAdd acc e.value) (.jnum (Qi 0)))
    (.jnum (Qi 1))
  let opacities : List String := ["0.9", "0.65", "0.45", "0.3", "0.2", "0.12"]
  let pcts := series.map fun item => jsToFixed1 (jsMul (jsDiv item.value total) (.jnum (Qi 100)))
  let arcsSvg := joinWith "\n  " (mapIdxP (fun i item =>
    let lg := if jsGT (jsDiv item.value total) (.jnum (mkRat 1 2)) then "1" else "0"
    let d := joinSpace
      ["M " ++ trigCoordText ++ " " ++ trigCoordText,
       "A 100 100 0 " ++ lg ++ " 1 " ++ trigCoordText ++ " " ++ trigCoordText,
       "L " ++ trigCoordText ++ " " ++ trigCoordText,
       "A 52 52 0 " ++ lg ++ " 0 " ++ trigCoordText ++ " " ++ trigCoordText,
       "Z"]
    "<path d=\"" ++ d ++ "\" fill=\"black\" opacity=\"" ++
    (opacities.getD (i % 6) "0.9") ++ "\" stroke=\"white\" stroke-width=\"1.5\"/>") 0 series)
  let legendItems := joinWith "\n  " (mapIdxP (fun i item =>
    let y := 20 + i * 34
    "<rect x=\"300\" y=\"" ++ toString y ++
    "\" width=\"12\" height=\"12\" rx=\"2\"\n          fill=\"black\" opacity=\"" ++
    (opacities.getD (i % 6) "0.9") ++ "\"/>\n  <text x=\"318\" y=\"" ++ toString (y + 9) ++
    "\" dominant-baseline=\"middle\"\n        style=\"font-size:11px;fill:black;font-family:" ++
    FONT ++ ";\"\n        >" ++ escS (truncate item.label 32) ++ "</text>\n  <text x=\"756\" y=\"" ++
    toString (y + 9) ++
    "\" text-anchor=\"end\" dominant-baseline=\"middle\"\n        style=\"font-size:11px;fill:black;opacity:0.55;font-family:monospace;\"\n        >" ++
    (pcts.getD i "") ++ "%</text>") 0 (series.take 6))
  "<svg viewBox=\"0 0 760 240\" width=\"100%\" height=\"100%\"\n     xmlns=\"http://www.w3.org/2000/svg\" preserveAspectRatio=\"xMidYMid meet\"\n     style=\"display:block;overflow:visible;\">\n  " ++
  arcsSvg ++ "\n  " ++ legendItems ++ "\n</svg>"

/-! ### Markup composer -/

/-- Which chart renderer `renderMarkup` selects. -/
inductive ChartKind where
  | bigNumber : ChartKind
  | pie : ChartKind
  | bar : ChartKind
  | funnel : ChartKind
  | paths : ChartKind
  | line : ChartKind
  | empty : ChartKind

/-- The renderer-selection chain of `renderMarkup` (source order):
big number, pie (≥2), bar (≥2), funnel type (≥2), paths type (≥1),
line (≥2), empty state.  The `isBar` flag is computed eagerly, so
`display.startsWith` throws for any non-string display value. -/
def chooseChart (ty display : JVal) (series : List SEntry) : Except Unit ChartKind :=
  let isPie := jsStrictEqStr display "ActionsPie"
  let isBigNum := jsStrictEqStr display "BoldNumber"
  match jsStartsWith display "ActionsBar" with
  | .error () => .error ()
  | .ok sw =>
    let isBar := sw || jsStrictEqStr display "ActionsUnstackedBar" ||
      jsStrictEqStr display "ActionsStackedBar" || jsStrictEqStr display "ActionsBarValue"
    .ok
      (if isBigNum then .bigNumber
      else if isPie && 2 ≤ series.length then .pie
      else if isBar && 2 ≤ series.length then .bar
      else if jsStrictEqStr ty "FUNNEL" && 2 ≤ series.length then .funnel
      else if jsStrictEqStr ty "PATHS" && 1 ≤ series.length then .paths
      else if 2 ≤ series.length then .line
      else .empty)

/-- The fragment produced for a selected chart kind. -/
def chartFragment (k : ChartKind) (r : Canon) : String :=
  match k with
  | .bigNumber => renderBigNumber r.primaryValue r.secondaryLabel
  | .pie => renderPieChart r.series
  | .bar => renderBarChart r.series
  | .funnel => renderFunnelChart r.series
  | .paths => renderPathsList r.series r.primaryValue
  | .line => renderLineChart r.series
  | .empty => renderEmptyChart

/-- JS `String.prototype.trim` (ASCII whitespace suffices here). -/
def trimStr (s : String) : String := String.mk (trimWS s.data)

/-- The outer 800×480 template (`TITLE_H = 40`, `PAD_V = 16`,
`PAD_H = 18` inlined), before the final `.trim()`. -/
def mainShell (metaLine safeTitle chart : String) : String :=
  "\n<div style=\"position:absolute;top:0;left:0;right:0;bottom:40px;\n            display:flex;flex-direction:column;\n            padding:16px 18px 0;\n            font-family:" ++
  FONT ++
  ";\">\n\n  <!-- Meta line -->\n  <div style=\"flex-shrink:0;font-size:11px;font-weight:600;letter-spacing:0.1em;\n              opacity:0.4;text-transform:uppercase;margin-bottom:5px;\"\n    >" ++
  escS metaLine ++
  "</div>\n\n  <!-- Insight title -->\n  <div style=\"flex-shrink:0;font-size:24px;font-weight:700;letter-spacing:-0.4px;\n              margin-bottom:10px;line-height:1.15;\"\n    >" ++
  safeTitle ++
  "</div>\n\n  <!-- Chart area — grows to fill remaining space -->\n  <div style=\"flex:1;min-height:0;display:flex;flex-direction:column;\">\n    " ++
  chart ++
  "\n  </div>\n\n</div>\n\n<!-- Bottom title bar — fully self-contained, no external CSS needed -->\n<div style=\"position:absolute;bottom:0;left:0;right:0;height:40px;\n            border-top:1px solid #e0e0e0;\n            display:flex;align-items:center;gap:8px;\n            padding:0 18px;\n            font-family:" ++
  FONT ++
  ";\">\n  <img src=\"https://app.posthog.com/static/posthog-logo.svg\"\n       style=\"height:18px;width:auto;flex-shrink:0;\" alt=\"\"\n       onerror=\"this.style.display='none'\">\n  <span style=\"font-size:13px;font-weight:600;white-space:nowrap;\">PostHog Insight</span>\n  <span style=\"font-size:13px;opacity:0.4;white-space:nowrap;overflow:hidden;\n               text-overflow:ellipsis;\">· " ++
  safeTitle ++ "</span>\n</div>\n"

/-- `renderMarkup({title, type, display = '', primaryValue,
secondaryLabel, series})`: meta line, escaped title (header and footer),
selected chart fragment, trimmed.  Throws only from
`display.startsWith` / `typeLabel.toUpperCase()` on non-string
values. -/
def renderMarkup (r : Canon) : Except Unit String :=
  let display := match r.display with
    | .undef => JVal.jstr ""
    | d => d
  let typeLabel := formatType r.type display
  let safeTitle := esc r.title
  match chooseChart r.type display r.series with
  | .error () => .error ()
  | .ok k =>
    let chart := chartFragment k r
    let dateRange :=
      if jsStrictEqStr display "BoldNumber" || jsStrictEqStr display "ActionsPie" then ""
      else seriesDateRange r.series
    match jsToUpperE typeLabel with
    | .error () => .error ()
    | .ok upper =>
      let metaLine := upper ++ (if dateRange.data.isEmpty then "" else " • " ++ dateRange)
      .ok (trimStr (mainShell metaLine safeTitle chart))

/-! ### Shared arithmetic lemmas -/

theorem Qi_le_Qi {a b : ℤ} : Qi a ≤ Qi b ↔ a ≤ b := by
  rw [Qi_eq, Qi_eq]
  exact_mod_cast Iff.rfl

theorem Qi_lt_Qi {a b : ℤ} : Qi a < Qi b ↔ a < b := by
  rw [Qi_eq, Qi_eq]
  exact_mod_cast Iff.rfl

theorem Qi_den (n : ℤ) : (Qi n).den = 1 := by
  rw [Qi_eq]
  exact Rat.den_intCast n

theorem Qi_ne_zero {n : ℤ} (h : n ≠ 0) : Qi n ≠ 0 := by
  rw [Qi_eq]
  exact_mod_cast h

theorem qdiv_mul_Qi (k m : ℤ) (hm : m ≠ 0) : qdiv (Qi (m * k)) (Qi m) = Qi k := by
  rw [qdiv_eq _ _ (Qi_ne_zero hm), Qi_eq, Qi_eq, Qi_eq]
  push_cast
  field_simp

theorem floor_intCast_add_half (m : ℤ) : ⌊(m : ℚ) + mkRat 1 2⌋ = m := by
  rw [Rat.mkRat_eq_div]
  rw [Int.floor_eq_iff]
  constructor
  · push_cast; linarith
  · push_cast; linarith

/-- `toFixed(1)` of a nonnegative integer is `"<n>.0"`. -/
theorem toFixed1_intCast (n : ℤ) (hn : 0 ≤ n) : toFixed1 (Qi n) = toString n ++ ".0" := by
  have h1 : qmul (Qi 10) (Qi n) = Qi (10 * n) := by
    rw [qmul_eq, Qi_eq, Qi_eq, Qi_eq]
    push_cast
    ring
  have h2 : qadd (Qi (10 * n)) (mkRat 1 2) = (((10 * n : ℤ)) : ℚ) + mkRat 1 2 := by
    rw [qadd_eq, Qi_eq]
  rw [toFixed1, h1, h2, floor_intCast_add_half]
  have h3 : ¬ (10 * n < 0) := by omega
  rw [if_neg h3]
  have h4 : 10 * n / 10 = n := by omega
  have h5 : 10 * n % 10 = 0 := by omega
  rw [h4, h5]
  have : (toString (0 : ℤ)) = "0" := by rfl
  rw [this, String.append_assoc]
  congr 1

/-- `toFixed(0)` of an integer. -/
theorem toFixed0_intCast (n : ℤ) : toFixed0 (Qi n) = toString n := by
  rw [toFixed0, jsRoundQ]
  have h2 : qadd (Qi n) (mkRat 1 2) = ((n : ℤ) : ℚ) + mkRat 1 2 := by
    rw [qadd_eq, Qi_eq]
  rw [h2, floor_intCast_add_half]

/-! ### C3 — numeric formatter decimal policy -/

/-- C3 counterexample: the claim says `format(2000) = "2K"`, but
`formatNumber` always prints one decimal after scaling: it yields
`"2.0K"` (only the axis-tick variant drops the decimal). -/
theorem formatNumber_2000_cx :
    formatNumber (.jnum (Qi 2000)) = "2.0K" ∧ "2.0K" ≠ "2K" ∧
    formatAxisNum (.jnum (Qi 2000)) = "2K" := by
  refine ⟨by rfl, by decide, by rfl⟩

/-- C3 (amended): the two formatters share thresholds and pass
non-numeric input through, but differ in decimal policy.
`formatNumber` always prints one decimal after scaling
(`1000 → "1.0K"`, `2000 → "2.0K"`, `1500000 → "1.5M"`), while
`formatAxisNum` drops the decimal exactly when the number is an exact
multiple of the scale divisor (`1000 → "1K"`, `2000 → "2K"`,
`2500 → "2.5K"`); below 1000 both print the plain number. -/
theorem format_decimal_policy :
    (∀ k : ℤ, 1 ≤ k → k < 1000 →
      formatNumber (.jnum (Qi (1000 * k))) = toString k ++ ".0K" ∧
      formatAxisNum (.jnum (Qi (1000 * k))) = toString k ++ "K") ∧
    formatNumber (.jnum (Qi 999)) = "999" ∧
    formatNumber (.jnum (Qi 1000)) = "1.0K" ∧
    formatNumber (.jnum (Qi 2000)) = "2.0K" ∧
    formatNumber (.jnum (Qi 1500000)) = "1.5M" ∧
    formatNumber (.jstr "n/a") = "n/a" ∧
    formatAxisNum (.jnum (Qi 999)) = "999" ∧
    formatAxisNum (.jnum (Qi 1000)) = "1K" ∧
    formatAxisNum (.jnum (Qi 2500)) = "2.5K" ∧
    formatAxisNum (.jnum (Qi 1500000)) = "1.5M" := by
  refine ⟨?_, by rfl, by rfl, by rfl, by rfl, by rfl, by rfl, by rfl, by rfl, by rfl⟩
  intro k h1 h2
  have hlt : ¬ Qi 1000000 ≤ Qi (1000 * k) := by rw [Qi_le_Qi]; omega
  have hge : Qi 1000 ≤ Qi (1000 * k) := by rw [Qi_le_Qi]; omega
  have hq : qdiv (Qi (1000 * k)) (Qi 1000) = Qi k := qdiv_mul_Qi k 1000 (by norm_num)
  constructor
  · simp only [formatNumber, jsToNumber]
    rw [if_neg hlt, if_pos hge, hq, toFixed1_intCast k (by omega), String.append_assoc]
    congr 1
  · simp only [formatAxisNum, jsToNumber]
    rw [if_neg hlt, if_pos hge, hq]
    simp only [Qi_den]
    rw [toFixed0_intCast k]
    simp

/-- Witness for `format_decimal_policy` at `k = 7`. -/
theorem format_decimal_policy_w :
    ((1 : ℤ) ≤ 7 ∧ (7 : ℤ) < 1000) ∧
    formatNumber (.jnum (Qi (1000 * 7))) = toString (7 : ℤ) ++ ".0K" ∧
    formatAxisNum (.jnum (Qi (1000 * 7))) = toString (7 : ℤ) ++ "K" :=
  ⟨by decide, format_decimal_policy.1 7 (by decide) (by decide)⟩

/-! ### C1 — minimum-data gate of the chart selection -/

/-- C1: for a canonical record whose series has fewer than 2 entries,
none of the renderers requiring two points (line, bar, pie, funnel) is
selected: unless the big-number variant is chosen or the record is
PATHS with one entry, the composer picks the empty state, whose
fragment is `renderEmptyChart`. -/
theorem chart_gate_short_series (ty d : String) (series : List SEntry)
    (hlen : series.length < 2) (hbig : d ≠ "BoldNumber")
    (hpaths : ¬ (ty = "PATHS" ∧ 1 ≤ series.length)) :
    chooseChart (.jstr ty) (.jstr d) series = .ok ChartKind.empty ∧
    ∀ r : Canon, chartFragment ChartKind.empty r = renderEmptyChart := by
  constructor
  · have h2 : ¬ (2 ≤ series.length) := by omega
    have hbig' : jsStrictEqStr (.jstr d) "BoldNumber" = false := by
      simp [jsStrictEqStr]
      exact hbig
    have hpa : (jsStrictEqStr (.jstr ty) "PATHS" && decide (1 ≤ series.length)) = false := by
      rcases Nat.eq_zero_or_pos series.length with hz | hp
      · simp [hz]
      · have hne : ty ≠ "PATHS" := fun h => hpaths ⟨h, hp⟩
        simp [jsStrictEqStr, hne]
    simp only [chooseChart, jsStartsWith, hbig', h2]
    simp [hpa, h2]
  · intro r
    rfl

/-- Witness for `chart_gate_short_series` at a one-entry TRENDS record. -/
theorem chart_gate_short_series_w :
    (([⟨.jstr "a", .jnum (Qi 1)⟩] : List SEntry).length < 2 ∧ ("" : String) ≠ "BoldNumber" ∧
      ¬ (("TRENDS" : String) = "PATHS" ∧ 1 ≤ ([⟨.jstr "a", .jnum (Qi 1)⟩] : List SEntry).length)) ∧
    chooseChart (.jstr "TRENDS") (.jstr "") [⟨.jstr "a", .jnum (Qi 1)⟩] = .ok ChartKind.empty :=
  ⟨⟨by decide, by decide, by decide⟩,
    (chart_gate_short_series "TRENDS" "" [⟨.jstr "a", .jnum (Qi 1)⟩] (by decide) (by decide)
      (by decide)).1⟩

/-! ### C2 — the `type` field and the six enumerated kinds -/

/-- The six enumerated kind strings of the canonical data model. -/
def sixKinds : List String := ["TRENDS", "FUNNEL", "RETENTION", "PATHS", "LIFECYCLE", "STICKINESS"]

/-- Does a truthy legacy `filters.insight` determine the type verbatim? -/
def legacyTyped (insight : JVal) : Bool :=
  truthy (jsGetT insight "filters") && truthy (jsGetT (jsGetT insight "filters") "insight")

/-- C2 counterexample: a dashboard whose tiles all lack a non-null
result yields the sentinel type `"empty"`, which is not one of the six
enumerated kinds. -/
theorem dashboard_empty_type_cx :
    (parseDashboard (.jobj [("tiles", .jarr [])])).map Canon.type = .ok (.jstr "empty") ∧
    "empty" ∉ sixKinds :=
  ⟨by rfl, by decide⟩

theorem kindProbe_mem (kind ty : JVal) (ps : List (String × String × String))
    (h : kindProbe kind ps = .ok ty) :
    ty = .jstr "TRENDS" ∨ ∃ p ∈ ps, ty = JVal.jstr p.2.2 := by
  induction ps with
  | nil =>
    left
    unfold kindProbe at h
    injection h with h2
    exact h2.symm
  | cons p rest ih =>
    obtain ⟨s1, s2, res⟩ := p
    unfold kindProbe at h
    cases h1 : jsIncludes kind s1 with
    | error e => rw [h1] at h; cases h
    | ok b1 =>
      rw [h1] at h
      cases b1 with
      | true =>
        simp only [bind, Except.bind, if_true, pure, Except.pure] at h
        injection h with h2
        right
        exact ⟨(s1, s2, res), by simp, h2.symm⟩
      | false =>
        simp only [bind, Except.bind, Bool.false_eq_true, if_false] at h
        cases h2 : jsIncludes kind s2 with
        | error e => rw [h2] at h; cases h
        | ok b2 =>
          rw [h2] at h
          cases b2 with
          | true =>
            simp only [if_true, pure, Except.pure] at h
            injection h with h3
            right
            exact ⟨(s1, s2, res), by simp, h3.symm⟩
          | false =>
            simp only [Bool.false_eq_true, if_false] at h
            rcases ih h with h4 | ⟨q, hq, h5⟩
            · left; exact h4
            · right; exact ⟨q, by simp [hq], h5⟩

theorem resolveTypeQuery_mem (ins ty : JVal) (h : resolveTypeQuery ins = .ok ty) :
    ∃ s ∈ sixKinds, ty = JVal.jstr s := by
  unfold resolveTypeQuery at h
  simp only [] at h
  split at h
  · rcases kindProbe_mem _ _ _ h with h1 | ⟨p, hp, h2⟩
    · exact ⟨"TRENDS", by simp [sixKinds], h1⟩
    · fin_cases hp <;> exact ⟨_, by simp [sixKinds], h2⟩
  · injection h with h2
    exact ⟨"TRENDS", by simp [sixKinds], h2.symm⟩

theorem resolveType_mem (fs : List (String × JVal)) (ty : JVal)
    (hleg : legacyTyped (.jobj fs) = false) (h : resolveType (.jobj fs) = .ok ty) :
    ∃ s ∈ sixKinds, ty = JVal.jstr s := by
  unfold resolveType at h
  simp only [jsGet, bind, Except.bind] at h
  unfold legacyTyped at hleg
  by_cases h1 : truthy (jsGetT (.jobj fs) "filters")
  · rw [if_pos h1] at h
    have h2 : truthy (jsGetT (jsGetT (.jobj fs) "filters") "insight") = false := by
      rw [h1] at hleg
      simpa using hleg
    rw [h2] at h
    simp only [Bool.false_eq_true, if_false] at h
    exact resolveTypeQuery_mem _ _ h
  · rw [if_neg h1] at h
    exact resolveTypeQuery_mem _ _ h

theorem parseInsightData_type (t : JVal) (fs : List (String × JVal)) (r : Canon)
    (hok : parseInsightData t (.jobj fs) = .ok r) :
    resolveType (.jobj fs) = .ok r.type := by
  unfold parseInsightData at hok
  cases hres : resolveType (.jobj fs) with
  | error e =>
    rw [hres] at hok
    cases hok
  | ok ty =>
    rw [hres] at hok
    injection hok with h2
    rw [← h2]

/-- C2 (amended): whenever the normalizer itself derives the type —
the payload does not carry a truthy legacy `filters.insight` — the
returned record's type is one of the six enumerated kinds. (A legacy
`filters.insight` value is copied verbatim without validation, and a
dashboard with no qualifying tile yields the sentinel `"empty"`.) -/
theorem type_in_six_unless_legacy (t : JVal) (fs : List (String × JVal)) (r : Canon)
    (hleg : legacyTyped (.jobj fs) = false)
    (hok : parseInsightData t (.jobj fs) = .ok r) :
    ∃ s ∈ sixKinds, r.type = .jstr s :=
  resolveType_mem fs r.type hleg (parseInsightData_type t fs r hok)

/-- Witness for `type_in_six_unless_legacy` on a modern funnel query. -/
theorem type_in_six_unless_legacy_w :
    legacyTyped (.jobj [("query", .jobj [("kind", .jstr "FunnelsQuery")])]) = false ∧
    parseInsightData (.jstr "t") (.jobj [("query", .jobj [("kind", .jstr "FunnelsQuery")])]) =
      .ok ⟨.jstr "t", .jstr "FUNNEL", .jstr "", .jstr "—", .jstr "", []⟩ ∧
    ∃ s ∈ sixKinds,
      (⟨.jstr "t", .jstr "FUNNEL", .jstr "", .jstr "—", .jstr "", []⟩ : Canon).type = .jstr s :=
  ⟨by rfl, by rfl,
    type_in_six_unless_legacy (.jstr "t") [("query", .jobj [("kind", .jstr "FunnelsQuery")])]
      ⟨.jstr "t", .jstr "FUNNEL", .jstr "", .jstr "—", .jstr "", []⟩ (by rfl) (by rfl)⟩

/-! ### C8 — normalization totality -/

/-- C8 counterexample: a payload whose `query.kind` is the number `1`
makes `kind.includes('Funnel')` throw a TypeError before the try/catch
region, so `parseInsightData` raises to its caller. -/
theorem parse_throws_on_numeric_kind_cx :
    parseInsightData (.jstr "t") (.jobj [("query", .jobj [("kind", .jnum (Qi 1))])]) =
      .error () := by rfl

/-- Does the value have an `includes` method (strings and arrays)? -/
def hasIncludes : JVal → Bool
  | .jstr _ => true
  | .jarr _ => true
  | _ => false

/-- The `kind` value the type resolver would probe. -/
def resolvedKind (insight : JVal) : JVal := queryKind (jsGetT insight "query")

/-- The pre-try region cannot throw: either the legacy filters path is
taken, or there is no truthy query, or the probed kind value supports
`includes`. -/
def kindSafe (insight : JVal) : Bool :=
  legacyTyped insight || !truthy (jsGetT insight "query") || hasIncludes (resolvedKind insight)

theorem jsIncludes_ok (v : JVal) (hv : hasIncludes v = true) (sub : String) :
    ∃ b, jsIncludes v sub = .ok b := by
  cases v <;> simp [hasIncludes] at hv <;> simp [jsIncludes]

theorem kindProbe_ok (kind : JVal) (hv : hasIncludes kind = true) :
    ∀ ps : List (String × String × String), ∃ ty, kindProbe kind ps = .ok ty := by
  intro ps
  induction ps with
  | nil => exact ⟨.jstr "TRENDS", rfl⟩
  | cons p rest ih =>
    obtain ⟨s1, s2, res⟩ := p
    obtain ⟨b1, hb1⟩ := jsIncludes_ok kind hv s1
    cases b1 with
    | true =>
      exact ⟨.jstr res, by simp [kindProbe, hb1, bind, Except.bind, pure, Except.pure]⟩
    | false =>
      obtain ⟨b2, hb2⟩ := jsIncludes_ok kind hv s2
      cases b2 with
      | true =>
        exact ⟨.jstr res, by simp [kindProbe, hb1, hb2, bind, Except.bind, pure, Except.pure]⟩
      | false =>
        obtain ⟨ty, hty⟩ := ih
        exact ⟨ty, by simp [kindProbe, hb1, hb2, bind, Except.bind, hty]⟩

theorem resolveTypeQuery_ok (ins : JVal)
    (h : truthy (jsGetT ins "query") = false ∨
      hasIncludes (queryKind (jsGetT ins "query")) = true) :
    ∃ ty, resolveTypeQuery ins = .ok ty := by
  by_cases h1 : truthy (jsGetT ins "query")
  · rcases h with h2 | h2
    · rw [h1] at h2; cases h2
    · obtain ⟨ty, hty⟩ := kindProbe_ok _ h2
        [("Funnel", "funnel", "FUNNEL"), ("Retention", "retention", "RETENTION"),
         ("Path", "path", "PATHS"), ("Lifecycle", "lifecycle", "LIFECYCLE"),
         ("Stickiness", "stickiness", "STICKINESS")]
      refine ⟨ty, ?_⟩
      simp only [resolveTypeQuery]
      rw [if_pos h1]
      exact hty
  · refine ⟨.jstr "TRENDS", ?_⟩
    simp only [resolveTypeQuery]
    rw [if_neg h1]
    rfl

theorem resolveType_ok (fs : List (String × JVal)) (hsafe : kindSafe (.jobj fs) = true) :
    ∃ ty, resolveType (.jobj fs) = .ok ty := by
  by_cases hleg : legacyTyped (.jobj fs) = true
  · simp only [legacyTyped, Bool.and_eq_true] at hleg
    obtain ⟨h1, h2⟩ := hleg
    refine ⟨jsGetT (jsGetT (.jobj fs) "filters") "insight", ?_⟩
    simp only [resolveType, jsGet, bind, Except.bind]
    rw [if_pos h1, if_pos h2]
    rfl
  · have hleg' : legacyTyped (.jobj fs) = false := by
      revert hleg
      cases legacyTyped (.jobj fs) <;> simp
    have hrest : truthy (jsGetT (.jobj fs) "query") = false ∨
        hasIncludes (resolvedKind (.jobj fs)) = true := by
      simp only [kindSafe, hleg', Bool.false_or, Bool.or_eq_true, Bool.not_eq_true'] at hsafe
      exact hsafe
    obtain ⟨ty, hty⟩ := resolveTypeQuery_ok (.jobj fs) (by
      rcases hrest with h | h
      · exact Or.inl h
      · exact Or.inr h)
    cases h1 : truthy (jsGetT (.jobj fs) "filters") with
    | false =>
      refine ⟨ty, ?_⟩
      simp only [resolveType, jsGet, bind, Except.bind, h1, Bool.false_eq_true, if_false]
      exact hty
    | true =>
      have h2 : truthy (jsGetT (jsGetT (.jobj fs) "filters") "insight") = false := by
        simp only [legacyTyped, h1, Bool.true_and] at hleg'
        exact hleg'
      refine ⟨ty, ?_⟩
      simp only [resolveType, jsGet, bind, Except.bind, h1, if_true, h2, Bool.false_eq_true,
        if_false]
      exact hty

/-- C8 (amended): `parseInsightData` returns a canonical record for
every object payload provided the pre-try region cannot throw: the
legacy `filters.insight` path is taken, or there is no truthy modern
`query`, or the resolved kind value is a string or array (has an
`includes` method).  Every failure inside the series-extraction region
is caught; the only escape is `kind.includes` on a bad kind. -/
theorem parse_total_when_kind_safe (t : JVal) (fs : List (String × JVal))
    (hsafe : kindSafe (.jobj fs) = true) :
    ∃ r, parseInsightData t (.jobj fs) = .ok r := by
  obtain ⟨ty, hty⟩ := resolveType_ok fs hsafe
  have hstep : parseInsightData t (.jobj fs) =
      (match resolveType (.jobj fs) with
      | .error () => .error ()
      | .ok ty =>
        let display := resolveDisplay (.jobj fs)
        let result := resolveResult (.jobj fs)
        let st := tryExtract ty display result
        .ok ⟨t, ty, display, st.primaryValue, st.secondaryLabel, st.series⟩) := rfl
  rw [hstep, hty]
  exact ⟨_, rfl⟩

/-- Witness for `parse_total_when_kind_safe` on a retention query. -/
theorem parse_total_when_kind_safe_w :
    kindSafe (.jobj [("query", .jobj [("kind", .jstr "RetentionQuery")])]) = true ∧
    ∃ r, parseInsightData (.jstr "t")
      (.jobj [("query", .jobj [("kind", .jstr "RetentionQuery")])]) = .ok r :=
  ⟨by rfl, parse_total_when_kind_safe (.jstr "t")
    [("query", .jobj [("kind", .jstr "RetentionQuery")])] (by rfl)⟩

/-! ### C9 — series values: raw pass-through vs coerced sums -/

/-- C9 counterexample: a `null` entry in a trend series' `data` array
is copied into the canonical series verbatim — it is not a finite
number and is not normalized to 0. -/
theorem series_null_value_cx :
    parseInsightData (.jstr "t")
      (.jobj [("result", .jarr [.jobj [("label", .jstr "x"),
        ("data", .jarr [.jnull, .jnum (Qi 5)]),
        ("labels", .jarr [.jstr "a", .jstr "b"])]])]) =
      .ok ⟨.jstr "t", .jstr "TRENDS", .jstr "", .jstr "5", .jstr "x",
        [⟨.jstr "a", .jnull⟩, ⟨.jstr "b", .jnum (Qi 5)⟩]⟩ ∧
    JVal.jnull ≠ JVal.jnum (Qi 0) :=
  ⟨by rfl, fun h => JVal.noConfusion h⟩

/-- The numeric content `v || 0` contributes to a sum (under the
hypothesis that `v` is a number or falsy). -/
def numOr0 : JVal → ℚ
  | .jnum q => q
  | _ => Qi 0

theorem mapIdxP_value_map (f : ℕ → JVal → JVal) :
    ∀ (vs : List JVal) (i : ℕ),
      (mapIdxP (fun i v => (⟨f i v, v⟩ : SEntry)) i vs).map SEntry.value = vs := by
  intro vs
  induction vs with
  | nil => intro i; rfl
  | cons v rest ih =>
    intro i
    simp only [mapIdxP, List.map]
    rw [ih (i + 1)]

theorem sumData_fold (xs : List JVal)
    (h : ∀ x ∈ xs, (∃ q, x = .jnum q) ∨ truthy x = false) :
    ∀ a : ℚ,
      xs.foldl (fun acc x => jsAdd acc (jsOr x (.jnum (Qi 0)))) (.jnum a) =
        .jnum (xs.foldl (fun acc x => qadd acc (numOr0 x)) a) := by
  induction xs with
  | nil => intro a; rfl
  | cons x rest ih =>
    intro a
    have hx := h x (by simp)
    have hrest : ∀ y ∈ rest, (∃ q, y = .jnum q) ∨ truthy y = false := fun y hy =>
      h y (by simp [hy])
    have hstep : jsAdd (.jnum a) (jsOr x (.jnum (Qi 0))) = .jnum (qadd a (numOr0 x)) := by
      rcases hx with ⟨q, rfl⟩ | hf
      · by_cases hq : truthy (.jnum q) = true
        · simp [jsOr, hq, jsAdd, toPrim, jsToNumber, numOr0]
        · have hq0 : q = 0 := by
            simp only [truthy, bne_iff_ne, ne_eq, Bool.not_eq_true, Decidable.not_not] at hq
            exact Rat.num_eq_zero.mp hq
          subst hq0
          have : (0 : ℚ) = Qi 0 := by rw [Qi_eq]; norm_num
          simp [jsOr, truthy, jsAdd, toPrim, jsToNumber, numOr0, ← this]
      · have hxn : jsOr x (.jnum (Qi 0)) = .jnum (Qi 0) := by simp [jsOr, hf]
        rw [hxn]
        have hn0 : numOr0 x = Qi 0 ∨ numOr0 x = 0 := by
          cases x <;> simp [numOr0]
          case jnum q =>
            simp only [truthy, bne_eq_false_iff_eq] at hf
            exact Or.inr (Rat.num_eq_zero.mp hf)
        have hval : numOr0 x = Qi 0 := by
          rcases hn0 with h1 | h1
          · exact h1
          · rw [h1, Qi_eq]; norm_num
        rw [hval]
        simp [jsAdd, toPrim, jsToNumber]
    simp only [List.foldl, hstep]
    exact ih hrest _

/-- C9 (amended): the zipped line/bar series copies the raw `data`
entries into the series values unchanged (no normalization of missing
or non-finite entries), while the aggregations going through `sumData`
coerce every falsy entry (`null`, `NaN`, `0`, `''`, `false`,
`undefined`) to 0 before adding. -/
theorem series_raw_passthrough_sums_coerced :
    (∀ (t : JVal) (lab : String) (vs ls : List JVal),
      parseInsightData t (.jobj [("result", .jarr [.jobj
        [("label", .jstr lab), ("data", .jarr vs), ("labels", .jarr ls)]])]) =
      .ok ⟨t, .jstr "TRENDS", .jstr "",
        .jstr (formatNumber (sumData (.jarr vs))),
        jsOr (.jstr lab) (.jstr ""),
        mapIdxP (fun i v => ⟨jsOr (jsIndex (.jarr ls) i) (.jstr ""), v⟩) 0 vs⟩ ∧
      (mapIdxP (fun i v => (⟨jsOr (jsIndex (.jarr ls) i) (.jstr ""), v⟩ : SEntry)) 0 vs).map
        SEntry.value = vs) ∧
    (∀ xs : List JVal, (∀ x ∈ xs, (∃ q, x = .jnum q) ∨ truthy x = false) →
      sumData (.jarr xs) = .jnum (xs.foldl (fun acc x => qadd acc (numOr0 x)) (Qi 0))) := by
  constructor
  · intro t lab vs ls
    exact ⟨by rfl, mapIdxP_value_map (fun i _ => jsOr (jsIndex (.jarr ls) i) (.jstr "")) vs 0⟩
  · intro xs h
    exact sumData_fold xs h (0 : ℚ) |>.trans (by norm_num [Qi_eq])

/-- Witness for `series_raw_passthrough_sums_coerced`: the sum part at
`[null, 5, NaN]` (the falsy entries coerce to 0, giving 5). -/
theorem series_raw_passthrough_sums_coerced_w :
    sumData (.jarr [JVal.jnull, JVal.jnum (Qi 5), JVal.jnan]) =
      .jnum ([JVal.jnull, JVal.jnum (Qi 5), JVal.jnan].foldl
        (fun acc x => qadd acc (numOr0 x)) (Qi 0)) :=
  series_raw_passthrough_sums_coerced.2 [JVal.jnull, JVal.jnum (Qi 5), JVal.jnan] (by
    intro x hx
    fin_cases hx
    · exact Or.inr rfl
    · exact Or.inl ⟨Qi 5, rfl⟩
    · exact Or.inr rfl)

/-! ### C10 — markup escaping -/

/-- The per-character action of the five sequential global replaces
(`&` is replaced first, so later passes never touch earlier output). -/
def escChar (c : Char) : List Char :=
  if c = '&' then "&amp;".data
  else if c = '<' then "&lt;".data
  else if c = '>' then "&gt;".data
  else if c = quoteC then "&quot;".data
  else if c = aposC then "&#39;".data
  else [c]

theorem escLt_append : ∀ a b, escLt (a ++ b) = escLt a ++ escLt b := by
  intro a b
  induction a with
  | nil => rfl
  | cons c cs ih => simp [escLt, ih]

theorem escGt_append : ∀ a b, escGt (a ++ b) = escGt a ++ escGt b := by
  intro a b
  induction a with
  | nil => rfl
  | cons c cs ih => simp [escGt, ih]

theorem escQuot_append : ∀ a b, escQuot (a ++ b) = escQuot a ++ escQuot b := by
  intro a b
  induction a with
  | nil => rfl
  | cons c cs ih => simp [escQuot, ih]

theorem escApos_append : ∀ a b, escApos (a ++ b) = escApos a ++ escApos b := by
  intro a b
  induction a with
  | nil => rfl
  | cons c cs ih => simp [escApos, ih]

/-- The four later passes map one escaped head chunk to `escChar`. -/
theorem escHead (c : Char) :
    escApos (escQuot (escGt (escLt (if c = '&' then "&amp;".data else [c])))) = escChar c := by
  by_cases h1 : c = '&'
  · subst h1; rfl
  · by_cases h2 : c = '<'
    · subst h2; rfl
    · by_cases h3 : c = '>'
      · subst h3; rfl
      · by_cases h4 : c = quoteC
        · subst h4; rfl
        · by_cases h5 : c = aposC
          · subst h5; rfl
          · simp [escChar, escLt, escGt, escQuot, escApos, h1, h2, h3, h4, h5]

/-- The sequential replace passes of `esc` equal a single character
map: `&` is replaced first and the entities introduce none of the four
remaining characters. -/
theorem escS_eq_flatMap (s : String) : escS s = String.mk (s.data.flatMap escChar) := by
  rw [escS]
  congr 1
  induction s.data with
  | nil => rfl
  | cons c cs ih =>
    show escApos (escQuot (escGt (escLt (escAmp (c :: cs))))) = _
    have h1 : escAmp (c :: cs) = (if c = '&' then "&amp;".data else [c]) ++ escAmp cs := rfl
    rw [h1, escLt_append, escGt_append, escQuot_append, escApos_append, escHead]
    simp only [List.flatMap_cons]
    rw [ih]

theorem escChar_no_raw (c x : Char) (hx : x ∈ escChar c) :
    x ≠ '<' ∧ x ≠ '>' ∧ x ≠ quoteC ∧ x ≠ aposC := by
  by_cases h1 : c = '&'
  · subst h1
    have hx' : x ∈ ['&', 'a', 'm', 'p', ';'] := hx
    fin_cases hx' <;> exact ⟨by decide, by decide, by decide, by decide⟩
  · by_cases h2 : c = '<'
    · subst h2
      have hx' : x ∈ ['&', 'l', 't', ';'] := by simpa [escChar, h1] using hx
      fin_cases hx' <;> exact ⟨by decide, by decide, by decide, by decide⟩
    · by_cases h3 : c = '>'
      · subst h3
        have hx' : x ∈ ['&', 'g', 't', ';'] := by simpa [escChar, h1, h2] using hx
        fin_cases hx' <;> exact ⟨by decide, by decide, by decide, by decide⟩
      · by_cases h4 : c = quoteC
        · subst h4
          have hx' : x ∈ ['&', 'q', 'u', 'o', 't', ';'] := by
            simpa [escChar, h1, h2, h3] using hx
          fin_cases hx' <;> exact ⟨by decide, by decide, by decide, by decide⟩
        · by_cases h5 : c = aposC
          · subst h5
            have hx' : x ∈ ['&', '#', '3', '9', ';'] := by
              simpa [escChar, h1, h2, h3, h4] using hx
            fin_cases hx' <;> exact ⟨by decide, by decide, by decide, by decide⟩
          · simp [escChar, h1, h2, h3, h4, h5] at hx
            subst hx
            exact ⟨h2, h3, h4, h5⟩

/-- C10: escaping is a per-character entity map; no raw `<`, `>`, `"`
or `'` survives in escaped text; the title `<script>&"'` escapes to
`&lt;script&gt;&amp;&quot;&#39;`; and the markup composed for a record
with that title is exactly the outer template with the escaped title
interpolated in both the header-title and footer slots (the chart
region being the empty-state fragment for its empty series). -/
theorem markup_escapes_reserved_chars :
    (∀ s : String, escS s = String.mk (s.data.flatMap escChar)) ∧
    (∀ s : String, '<' ∉ (escS s).data ∧ '>' ∉ (escS s).data ∧
      quoteC ∉ (escS s).data ∧ aposC ∉ (escS s).data) ∧
    escS "<script>&\"'" = "&lt;script&gt;&amp;&quot;&#39;" ∧
    renderMarkup ⟨.jstr "<script>&\"'", .jstr "TRENDS", .jstr "", .jstr "—", .jstr "", []⟩ =
      .ok (trimStr (mainShell "TRENDS" "&lt;script&gt;&amp;&quot;&#39;" renderEmptyChart)) := by
  have hflat : ∀ s : String, escS s = String.mk (s.data.flatMap escChar) := escS_eq_flatMap
  refine ⟨hflat, ?_, by rfl, by rfl⟩
  intro s
  have hmem : ∀ x, x ∈ (escS s).data → x ∈ s.data.flatMap escChar := by
    intro x hx
    rw [hflat s] at hx
    exact hx
  refine ⟨fun h => ?_, fun h => ?_, fun h => ?_, fun h => ?_⟩ <;>
    obtain ⟨c, _, hc⟩ := List.mem_flatMap.mp (hmem _ h)
  · exact (escChar_no_raw c _ hc).1 rfl
  · exact (escChar_no_raw c _ hc).2.1 rfl
  · exact (escChar_no_raw c _ hc).2.2.1 rfl
  · exact (escChar_no_raw c _ hc).2.2.2 rfl

/-! ### C4 — funnel extraction -/

/-- A funnel step payload `{name, count}`. -/
def mkStep (nm : String) (c : ℚ) : JVal := .jobj [("name", .jstr nm), ("count", .jnum c)]

/-- A legacy funnel insight payload with the given steps. -/
def mkFunnelInsight (steps : List (String × ℚ)) : JVal :=
  .jobj [("filters", .jobj [("insight", .jstr "FUNNEL")]),
         ("result", .jarr (steps.map fun p => mkStep p.1 p.2))]

/-- `(last.count / first.count * 100).toFixed(1)` when the first step
count is positive, `"0"` otherwise. -/
def conversionRate (steps : List (String × ℚ)) : String :=
  if 0 < (steps.headD ("", 0)).2 then
    toFixed1 (qmul (qdiv (steps.getLastD ("", 0)).2 (steps.headD ("", 0)).2) (Qi 100))
  else "0"

theorem getLastD_map_mkStep :
    ∀ (xs : List (String × ℚ)) (x : String × ℚ) (d : JVal) (d' : String × ℚ),
      ((x :: xs).map fun p => mkStep p.1 p.2).getLastD d =
        mkStep ((x :: xs).getLastD d').1 ((x :: xs).getLastD d').2 := by
  intro xs
  induction xs with
  | nil => intro x d d'; rfl
  | cons y ys ih =>
    intro x d d'
    rw [List.map_cons, List.getLastD_cons, List.getLastD_cons]
    exact ih y (mkStep x.1 x.2) x

theorem jsToString_jstr (s : String) : jsToString (.jstr s) = s := rfl

theorem mapE_mkStep :
    ∀ ps : List (String × ℚ),
      mapE (fun s => do
        let n ← jsGet s "name"
        let c ← jsGet s "count"
        pure (⟨n, c⟩ : SEntry)) (ps.map fun p => mkStep p.1 p.2) =
        .ok (ps.map fun p => (⟨.jstr p.1, .jnum p.2⟩ : SEntry)) := by
  intro ps
  induction ps with
  | nil => rfl
  | cons p rest ih =>
    have hstep : mapE (fun s => do
        let n ← jsGet s "name"
        let c ← jsGet s "count"
        pure (⟨n, c⟩ : SEntry)) ((p :: rest).map fun p => mkStep p.1 p.2) =
      Except.bind (mapE (fun s => do
          let n ← jsGet s "name"
          let c ← jsGet s "count"
          pure (⟨n, c⟩ : SEntry)) (rest.map fun p => mkStep p.1 p.2))
        (fun bs => .ok ((⟨.jstr p.1, .jnum p.2⟩ : SEntry) :: bs)) := rfl
    rw [hstep, ih]
    rfl

theorem funnelBranch_eval (steps : List (String × ℚ)) (h2 : 2 ≤ steps.length) :
    funnelBranch (.jarr (steps.map fun p => mkStep p.1 p.2)) initSt = .ok
      ⟨.jstr (conversionRate steps ++ "%"),
       .jstr ((steps.headD ("", 0)).1 ++ " → " ++ (steps.getLastD ("", 0)).1),
       steps.map fun p => (⟨.jstr p.1, .jnum p.2⟩ : SEntry)⟩ := by
  rcases steps with _ | ⟨a, steps2⟩
  · simp at h2
  rcases steps2 with _ | ⟨b, rest⟩
  · simp at h2
  have hlen : 2 ≤ ((a :: b :: rest).map fun p => mkStep p.1 p.2).length := by
    simp
  have hlast := getLastD_map_mkStep (b :: rest) a JVal.undef ("", 0)
  have hhead : ((a :: b :: rest).map fun p => mkStep p.1 p.2).headD .undef =
      mkStep a.1 a.2 := rfl
  simp only [funnelBranch, hlen, if_true, hhead, hlast]
  have hcount : ∀ (nm : String) (c : ℚ), jsGet (mkStep nm c) "count" = .ok (.jnum c) :=
    fun _ _ => rfl
  have hname : ∀ (nm : String) (c : ℚ), jsGet (mkStep nm c) "name" = .ok (.jstr nm) :=
    fun _ _ => rfl
  set lastp := (a :: b :: rest).getLastD ("", 0) with hlp
  by_cases hpos : 0 < a.2
  · have hgt : jsGT (.jnum a.2) (.jnum (Qi 0)) = true := by
      simp only [jsGT, jsToNumber]
      rw [Qi_eq]
      push_cast
      exact decide_eq_true hpos
    have hdiv : jsDiv (.jnum lastp.2) (.jnum a.2) = .jnum (qdiv lastp.2 a.2) := by
      simp only [jsDiv, jsToNumber]
      have hz : (a.2.num == 0) = false := by
        have hne : a.2.num ≠ 0 := by
          intro h
          rw [Rat.num_eq_zero.mp h] at hpos
          exact lt_irrefl 0 hpos
        simpa using hne
      rw [hz]
      rfl
    have hrate : conversionRate (a :: b :: rest) =
        toFixed1 (qmul (qdiv lastp.2 a.2) (Qi 100)) := by
      simp only [conversionRate, List.headD_cons, if_pos hpos, hlp]
    simp only [hcount, hname, orSt_ok, hgt, if_true, hdiv,
      mapE_mkStep, jsMul, jsToNumber, jsToFixed1, jsToString_jstr, hrate]
    rfl
  · have hgt : jsGT (.jnum a.2) (.jnum (Qi 0)) = false := by
      simp only [jsGT, jsToNumber]
      rw [Qi_eq]
      push_cast
      exact decide_eq_false hpos
    have hrate : conversionRate (a :: b :: rest) = "0" := by
      simp only [conversionRate, List.headD_cons, if_neg hpos]
    simp only [hcount, hname, orSt_ok, hgt, Bool.false_eq_true, if_false,
      mapE_mkStep, jsToString_jstr, hrate]
    rfl

/-- C4: for a FUNNEL insight with at least two steps, the conversion
rate is `(last count / first count * 100)` rounded to one decimal
(`"0"` when the first count is not positive), the secondary label is
`"first → last"`, and the series has one `{label: name, value: count}`
entry per step with order preserved. -/
theorem funnel_extraction (t : JVal) (steps : List (String × ℚ)) (h2 : 2 ≤ steps.length) :
    parseInsightData t (mkFunnelInsight steps) = .ok
      ⟨t, .jstr "FUNNEL", .jstr "",
       .jstr (conversionRate steps ++ "%"),
       .jstr ((steps.headD ("", 0)).1 ++ " → " ++ (steps.getLastD ("", 0)).1),
       steps.map fun p => (⟨.jstr p.1, .jnum p.2⟩ : SEntry)⟩ := by
  have hstep : parseInsightData t (mkFunnelInsight steps) =
      (let st := runCatch (funnelBranch (.jarr (steps.map fun p => mkStep p.1 p.2)) initSt);
       .ok ⟨t, .jstr "FUNNEL", .jstr "", st.primaryValue, st.secondaryLabel, st.series⟩) := rfl
  rw [hstep, funnelBranch_eval steps h2]
  rfl

/-- Witness for `funnel_extraction`: steps `[100, 100, 25]` give the
conversion rate `"25.0"`, and a zero first step gives `"0"`. -/
theorem funnel_extraction_w :
    (2 ≤ ([("A", (100 : ℚ)), ("B", 100), ("C", 25)] : List (String × ℚ)).length) ∧
    parseInsightData (.jstr "T") (mkFunnelInsight [("A", 100), ("B", 100), ("C", 25)]) =
      .ok ⟨.jstr "T", .jstr "FUNNEL", .jstr "", .jstr "25.0%", .jstr "A → C",
        [⟨.jstr "A", .jnum (Qi 100)⟩, ⟨.jstr "B", .jnum (Qi 100)⟩,
         ⟨.jstr "C", .jnum (Qi 25)⟩]⟩ ∧
    parseInsightData (.jstr "T") (mkFunnelInsight [("A", 0), ("B", 5)]) =
      .ok ⟨.jstr "T", .jstr "FUNNEL", .jstr "", .jstr "0%", .jstr "A → B",
        [⟨.jstr "A", .jnum (Qi 0)⟩, ⟨.jstr "B", .jnum (Qi 5)⟩]⟩ :=
  ⟨by decide,
   funnel_extraction (.jstr "T") [("A", 100), ("B", 100), ("C", 25)] (by decide),
   funnel_extraction (.jstr "T") [("A", 0), ("B", 5)] (by decide)⟩

/-! ### C5: retention extraction -/

/-- A `{count}` element of a cohort's `values` array. -/
def mkRetVal (c : ℚ) : JVal := .jobj [("count", .jnum c)]

/-- A cohort `{count, values: [{count}, ...]}`. -/
def mkCohort (cf : ℚ) (vals : List ℚ) : JVal :=
  .jobj [("count", .jnum cf), ("values", .jarr (vals.map mkRetVal))]

/-- A legacy RETENTION insight payload whose first (most recent) cohort
has the given day counts. -/
def mkRetentionInsight (cf : ℚ) (vals : List ℚ) (rest : List JVal) : JVal :=
  .jobj [("filters", .jobj [("insight", .jstr "RETENTION")]),
         ("result", .jarr (mkCohort cf vals :: rest))]

/-- Expected retention percentage for a day with count `c` when day 0 has
count `d0`: `Math.round(c / d0 * 100)` when `0 < d0`, else `0`. -/
def retVal (d0 c : ℚ) : JVal :=
  if 0 < d0 then .jnum (Qi (jsRoundQ (qmul (qdiv c d0) (Qi 100)))) else .jnum (Qi 0)

/-- Expected retention curve: entry `i` is `{label: "Day i", value: retVal d0 c_i}`. -/
def retCurve (d0 : ℚ) : ℕ → List ℚ → List SEntry
  | _, [] => []
  | i, c :: cs => ⟨.jstr ("Day " ++ toString i), retVal d0 c⟩ :: retCurve d0 (i + 1) cs

/-- Expected primary value: Day-1 percentage if a Day 1 exists, else the
compact-formatted day-0 count. -/
def retPrimary (d0 : ℚ) : List ℚ → JVal
  | [] => .jstr (formatNumber (jsOr (.jnum d0) (.jnum (Qi 0))))
  | d1 :: _ => .jstr (jsToString (retVal d0 d1) ++ "%")

/-- Expected secondary label. -/
def retSecondary : List ℚ → JVal
  | [] => .jstr "Retained (Day 0)"
  | _ :: _ => .jstr "Day 1 retention"

theorem mapIdxRet (day0 : JVal) (d0 : ℚ)
    (hgt : jsGT day0 (.jnum (Qi 0)) = decide (0 < d0))
    (hdiv : 0 < d0 → ∀ c : ℚ, jsDiv (.jnum c) day0 = .jnum (qdiv c d0)) :
    ∀ (i : ℕ) (cs : List ℚ),
      mapIdxE (fun i v => do
          let value ←
            if jsGT day0 (.jnum (Qi 0)) then do
              let c ← jsGet v "count"
              pure (mathRound (jsMul (jsDiv c day0) (.jnum (Qi 100))))
            else pure (JVal.jnum (Qi 0))
          pure (⟨.jstr ("Day " ++ toString i), value⟩ : SEntry)) i (cs.map mkRetVal) =
        .ok (retCurve d0 i cs) := by
  intro i cs
  induction cs generalizing i with
  | nil => rfl
  | cons c cs ih =>
    have hstep : mapIdxE (fun i v => do
        let value ←
          if jsGT day0 (.jnum (Qi 0)) then do
            let c ← jsGet v "count"
            pure (mathRound (jsMul (jsDiv c day0) (.jnum (Qi 100))))
          else pure (JVal.jnum (Qi 0))
        pure (⟨.jstr ("Day " ++ toString i), value⟩ : SEntry)) i ((c :: cs).map mkRetVal) =
      Except.bind
        ((do
          let value ←
            if jsGT day0 (.jnum (Qi 0)) then do
              let cv ← jsGet (mkRetVal c) "count"
              pure (mathRound (jsMul (jsDiv cv day0) (.jnum (Qi 100))))
            else pure (JVal.jnum (Qi 0))
          pure (⟨.jstr ("Day " ++ toString i), value⟩ : SEntry) : Except Unit SEntry))
        (fun b => Except.bind (mapIdxE (fun i v => do
            let value ←
              if jsGT day0 (.jnum (Qi 0)) then do
                let c ← jsGet v "count"
                pure (mathRound (jsMul (jsDiv c day0) (.jnum (Qi 100))))
              else pure (JVal.jnum (Qi 0))
            pure (⟨.jstr ("Day " ++ toString i), value⟩ : SEntry)) (i + 1) (cs.map mkRetVal))
          (fun bs => .ok (b :: bs))) := rfl
    rw [hstep, ih]
    by_cases hp : 0 < d0
    · have hc : jsGT day0 (.jnum (Qi 0)) = true := by rw [hgt]; exact decide_eq_true hp
      rw [hc]
      have hget : jsGet (mkRetVal c) "count" = .ok (.jnum c) := rfl
      rw [if_pos rfl]
      rw [hget]
      show Except.bind (Except.ok (⟨.jstr ("Day " ++ toString i),
          mathRound (jsMul (jsDiv (.jnum c) day0) (.jnum (Qi 100)))⟩ : SEntry))
        (fun b => Except.bind (Except.ok (retCurve d0 (i + 1) cs))
          (fun bs => Except.ok (b :: bs))) = Except.ok (retCurve d0 i (c :: cs))
      rw [hdiv hp c]
      have hcur : retCurve d0 i (c :: cs) =
          ⟨.jstr ("Day " ++ toString i),
            .jnum (Qi (jsRoundQ (qmul (qdiv c d0) (Qi 100))))⟩ :: retCurve d0 (i + 1) cs := by
        rw [retCurve, retVal, if_pos hp]
      rw [hcur]
      rfl
    · have hc : jsGT day0 (.jnum (Qi 0)) = false := by rw [hgt]; exact decide_eq_false hp
      rw [hc]
      rw [if_neg (by simp)]
      have hcur : retCurve d0 i (c :: cs) =
          ⟨.jstr ("Day " ++ toString i), .jnum (Qi 0)⟩ :: retCurve d0 (i + 1) cs := by
        rw [retCurve, retVal, if_neg hp]
      rw [hcur]
      rfl

theorem jsGT_num (x y : ℚ) : jsGT (.jnum x) (.jnum y) = decide (y < x) := rfl

theorem day0_gt (d0 : ℚ) :
    jsGT (jsOr (.jnum d0) (.jnum (Qi 0))) (.jnum (Qi 0)) = decide (0 < d0) := by
  by_cases hn : d0.num = 0
  · have hd0 : d0 = 0 := Rat.num_eq_zero.mp hn
    have ht : truthy (.jnum d0) = false := by simp [truthy, hn]
    rw [jsOr, ht, if_neg (by simp), jsGT_num]
    subst hd0
    simp [Qi_eq]
  · have ht : truthy (.jnum d0) = true := by simp [truthy, hn]
    rw [jsOr, ht, if_pos rfl, jsGT_num]
    simp [Qi_eq]

theorem day0_div (d0 : ℚ) (hp : 0 < d0) (c : ℚ) :
    jsDiv (.jnum c) (jsOr (.jnum d0) (.jnum (Qi 0))) = .jnum (qdiv c d0) := by
  have hn : d0.num ≠ 0 := Rat.num_ne_zero.mpr (ne_of_gt hp)
  have ht : truthy (.jnum d0) = true := by simp [truthy, hn]
  rw [jsOr, ht, if_pos rfl]
  simp only [jsDiv, jsToNumber]
  rw [if_neg (by simpa using hn)]

theorem retentionBranch_eval (cf d0 : ℚ) (ds : List ℚ) (rest : List JVal) :
    retentionBranch (.jarr (mkCohort cf (d0 :: ds) :: rest)) initSt =
      .ok ⟨retPrimary d0 ds, retSecondary ds, retCurve d0 0 (d0 :: ds)⟩ := by
  simp only [retentionBranch]
  rw [if_pos (by simp : 0 < (mkCohort cf (d0 :: ds) :: rest).length)]
  show orSt (mapIdxE (fun i v => do
      let value ←
        if jsGT (jsOr (.jnum d0) (.jnum (Qi 0))) (.jnum (Qi 0)) then do
          let c ← jsGet v "count"
          pure (mathRound (jsMul (jsDiv c (jsOr (.jnum d0) (.jnum (Qi 0)))) (.jnum (Qi 100))))
        else pure (JVal.jnum (Qi 0))
      pure (⟨.jstr ("Day " ++ toString i), value⟩ : SEntry)) 0 ((d0 :: ds).map mkRetVal))
    initSt
    (fun entries : List SEntry =>
      if 1 < entries.length then
        (Except.ok (⟨jsAdd (entries.getD 1 ⟨.undef, .undef⟩).value (.jstr "%"),
             .jstr "Day 1 retention", entries⟩ : PartSt) : Except PartSt PartSt)
      else
        Except.ok (⟨.jstr (formatNumber (jsOr (.jnum d0) (.jnum (Qi 0)))),
             .jstr "Retained (Day 0)", entries⟩ : PartSt)) =
    Except.ok (⟨retPrimary d0 ds, retSecondary ds, retCurve d0 0 (d0 :: ds)⟩ : PartSt)
  rw [mapIdxRet (jsOr (.jnum d0) (.jnum (Qi 0))) d0 (day0_gt d0) (day0_div d0) 0 (d0 :: ds),
    orSt_ok]
  cases ds with
  | nil => rfl
  | cons d1 ds2 =>
    have hlen : 1 < (retCurve d0 0 (d0 :: d1 :: ds2)).length := by
      rw [retCurve, retCurve]
      simp
    rw [if_pos hlen]
    have hget1 : ((retCurve d0 0 (d0 :: d1 :: ds2)).getD 1 ⟨.undef, .undef⟩).value =
        retVal d0 d1 := by
      rw [retCurve, retCurve]
      rfl
    rw [hget1]
    simp only [retPrimary, retSecondary]
    by_cases hp : 0 < d0
    · have hv : retVal d0 d1 = .jnum (Qi (jsRoundQ (qmul (qdiv d1 d0) (Qi 100)))) := by
        rw [retVal, if_pos hp]
      rw [hv]
      rfl
    · have hv : retVal d0 d1 = .jnum (Qi 0) := by
        rw [retVal, if_neg hp]
      rw [hv]
      rfl

/-- C5: for a RETENTION insight the most recent cohort is used; entry `i`
of the series is `{label: "Day i", value: Math.round(count_i / day0 * 100)}`
(`0` when day 0 is not positive); with at least two days the primary value
is the Day-1 percentage with secondary label `"Day 1 retention"`, otherwise
the formatted day-0 count with `"Retained (Day 0)"`; the cohort
`[{count:100, values:[{count:100},{count:40},{count:10}]}]` yields the
series `Day 0 -> 100, Day 1 -> 40, Day 2 -> 10`, primary `"40%"` and
secondary `"Day 1 retention"`. -/
theorem retention_extraction :
    (∀ (t : JVal) (cf d0 : ℚ) (ds : List ℚ) (rest : List JVal),
      parseInsightData t (mkRetentionInsight cf (d0 :: ds) rest) = .ok
        ⟨t, .jstr "RETENTION", .jstr "",
         retPrimary d0 ds, retSecondary ds, retCurve d0 0 (d0 :: ds)⟩) ∧
    parseInsightData (.jstr "T") (mkRetentionInsight 100 [100, 40, 10] []) = .ok
      ⟨.jstr "T", .jstr "RETENTION", .jstr "", .jstr "40%", .jstr "Day 1 retention",
       [⟨.jstr "Day 0", .jnum (Qi 100)⟩, ⟨.jstr "Day 1", .jnum (Qi 40)⟩,
        ⟨.jstr "Day 2", .jnum (Qi 10)⟩]⟩ := by
  constructor
  · intro t cf d0 ds rest
    have hstep : parseInsightData t (mkRetentionInsight cf (d0 :: ds) rest) =
        (let st := runCatch (retentionBranch (.jarr (mkCohort cf (d0 :: ds) :: rest)) initSt);
         .ok ⟨t, .jstr "RETENTION", .jstr "", st.primaryValue, st.secondaryLabel, st.series⟩) :=
      rfl
    rw [hstep, retentionBranch_eval cf d0 ds rest]
    rfl
  · rfl

/-! ### C6: paths extraction -/

/-- The JS value stored in an optional numeric field: the number when
present, `undefined` when absent. -/
def wJ : Option ℚ → JVal
  | some q => .jnum q
  | none => JVal.undef

/-- A path edge `{source, target, edge_weight, count}` whose endpoints
may be empty strings and whose weight and count may each be absent. -/
def mkEdge (e : String × String × Option ℚ × Option ℚ) : JVal :=
  .jobj [("source", .jstr e.1), ("target", .jstr e.2.1),
         ("edge_weight", wJ e.2.2.1), ("count", wJ e.2.2.2)]

/-- A legacy PATHS insight payload with the given edges. -/
def mkPathsInsight (es : List (String × String × Option ℚ × Option ℚ)) : JVal :=
  .jobj [("filters", .jobj [("insight", .jstr "PATHS")]),
         ("result", .jarr (es.map mkEdge))]

/-- Spec-level numeric key of an edge: the weight when present and
nonzero, else the count when present, else `0`
(`edge_weight || count || 0`). -/
def keyQ : Option ℚ → Option ℚ → ℚ
  | some w, oc => if w = 0 then oc.getD 0 else w
  | none, oc => oc.getD 0

/-- Spec-level filter: both endpoints present (nonempty). -/
def hasEnds (e : String × String × Option ℚ × Option ℚ) : Bool :=
  decide (e.1 ≠ "" ∧ e.2.1 ≠ "")

/-- Spec-level comparator: `a` may precede `b` iff `a`'s key (weight,
falling back to count) is at least `b`'s (descending order). -/
def edgeLe (a b : String × String × Option ℚ × Option ℚ) : Bool :=
  decide (keyQ b.2.2.1 b.2.2.2 ≤ keyQ a.2.2.1 a.2.2.2)

/-- Spec-level series entry for an edge. -/
def edgeEntry (e : String × String × Option ℚ × Option ℚ) : SEntry :=
  ⟨.jstr (e.1 ++ " → " ++ e.2.1), .jnum (keyQ e.2.2.1 e.2.2.2)⟩

theorem truthy_jstr_ne (s : String) (h : s ≠ "") : truthy (.jstr s) = true := by
  cases s with
  | mk d =>
    cases d with
    | nil => exact absurd rfl h
    | cons c cs => rfl

theorem truthy_pos (w : ℚ) (h : 0 < w) : truthy (.jnum w) = true := by
  simp only [truthy, ne_eq, bne_iff_ne]
  exact Rat.num_ne_zero.mpr (ne_of_gt h)

theorem truthy_num_ne (q : ℚ) (h : q ≠ 0) : truthy (.jnum q) = true := by
  simp only [truthy, ne_eq, bne_iff_ne]
  exact Rat.num_ne_zero.mpr h

theorem truthy_num_zero : truthy (.jnum (0 : ℚ)) = false := by
  simp [truthy]

theorem truthy_jstr_eq (s : String) : truthy (.jstr s) = decide (s ≠ "") := by
  cases s with
  | mk d =>
    cases d with
    | nil => rfl
    | cons c cs => rfl

/-- `x || (count-or-0)` for an optional count field. -/
theorem key_count (oc : Option ℚ) : jsOr (wJ oc) (.jnum (Qi 0)) = .jnum (oc.getD 0) := by
  cases oc with
  | none =>
    show JVal.jnum (Qi 0) = JVal.jnum 0
    congr 1
  | some c =>
    by_cases hc : c = 0
    · subst hc
      show jsOr (JVal.jnum 0) (JVal.jnum (Qi 0)) = JVal.jnum 0
      rw [jsOr, truthy_num_zero, if_neg (by simp)]
      congr 1
    · show jsOr (JVal.jnum c) (JVal.jnum (Qi 0)) = JVal.jnum ((some c).getD 0)
      rw [jsOr, truthy_num_ne c hc, if_pos rfl]
      rfl

/-- The sort key of an embedded edge is its spec-level key. -/
theorem pathKey_mkEdge (e : String × String × Option ℚ × Option ℚ) :
    pathKey (mkEdge e) = .jnum (keyQ e.2.2.1 e.2.2.2) := by
  rcases e with ⟨s, t, ow, oc⟩
  show jsOr (wJ ow) (jsOr (wJ oc) (.jnum (Qi 0))) = .jnum (keyQ ow oc)
  cases ow with
  | none =>
    show jsOr (wJ oc) (JVal.jnum (Qi 0)) = JVal.jnum (keyQ none oc)
    rw [key_count]
    rfl
  | some w =>
    by_cases hw : w = 0
    · subst hw
      show jsOr (JVal.jnum 0) (jsOr (wJ oc) (.jnum (Qi 0))) = JVal.jnum (keyQ (some 0) oc)
      rw [jsOr, truthy_num_zero, if_neg (by simp), key_count]
      rfl
    · show jsOr (JVal.jnum w) (jsOr (wJ oc) (.jnum (Qi 0))) = JVal.jnum (keyQ (some w) oc)
      rw [jsOr, truthy_num_ne w hw, if_pos rfl]
      show JVal.jnum w = JVal.jnum (if w = 0 then oc.getD 0 else w)
      rw [if_neg hw]

/-- The embedded comparator agrees with the spec comparator, for every
pair of edges. -/
theorem pathLe_mkEdge (a b : String × String × Option ℚ × Option ℚ) :
    pathLe (mkEdge a) (mkEdge b) = edgeLe a b := by
  rw [pathLe, pathKey_mkEdge a, pathKey_mkEdge b]
  have hs : jsSub (.jnum (keyQ b.2.2.1 b.2.2.2)) (.jnum (keyQ a.2.2.1 a.2.2.2)) =
      .jnum (qsub (keyQ b.2.2.1 b.2.2.2) (keyQ a.2.2.1 a.2.2.2)) := rfl
  rw [hs]
  show decide (qsub (keyQ b.2.2.1 b.2.2.2) (keyQ a.2.2.1 a.2.2.2) ≤ Qi 0) = edgeLe a b
  rw [qsub_eq, Qi_eq, edgeLe]
  exact decide_eq_decide.mpr (by rw [Int.cast_zero]; exact sub_nonpos)

theorem mem_insSorted {α : Type} (le : α → α → Bool) (x y : α) :
    ∀ l : List α, y ∈ insSorted le x l ↔ y = x ∨ y ∈ l := by
  intro l
  induction l with
  | nil => simp [insSorted]
  | cons z zs ih =>
    rw [insSorted]
    by_cases h : le x z = true
    · rw [if_pos h]
      simp only [List.mem_cons]
    · rw [if_neg h]
      simp only [List.mem_cons, ih]
      tauto

theorem mem_sortStable {α : Type} (le : α → α → Bool) :
    ∀ (l : List α) (y : α), y ∈ sortStable le l ↔ y ∈ l := by
  intro l
  induction l with
  | nil => simp [sortStable]
  | cons x xs ih =>
    intro y
    rw [sortStable, mem_insSorted]
    simp only [List.mem_cons, ih]

theorem insSorted_map {α β : Type} (le : α → α → Bool) (le2 : β → β → Bool)
    (g : α → β) (x : α) :
    ∀ l : List α, (∀ b ∈ l, le2 (g x) (g b) = le x b) →
      insSorted le2 (g x) (l.map g) = (insSorted le x l).map g := by
  intro l
  induction l with
  | nil => intro _; rfl
  | cons y ys ih =>
    intro h
    rw [List.map_cons, insSorted, insSorted, h y (List.mem_cons_self y ys)]
    by_cases hxy : le x y = true
    · rw [if_pos hxy, if_pos hxy, List.map_cons, List.map_cons]
    · rw [if_neg hxy, if_neg hxy, List.map_cons,
        ih (fun b hb => h b (List.mem_cons_of_mem y hb))]

theorem sortStable_map {α β : Type} (le : α → α → Bool) (le2 : β → β → Bool)
    (g : α → β) :
    ∀ l : List α, (∀ a ∈ l, ∀ b ∈ l, le2 (g a) (g b) = le a b) →
      sortStable le2 (l.map g) = (sortStable le l).map g := by
  intro l
  induction l with
  | nil => intro _; rfl
  | cons x xs ih =>
    intro h
    rw [List.map_cons, sortStable, sortStable,
      ih (fun a ha b hb =>
        h a (List.mem_cons_of_mem x ha) b (List.mem_cons_of_mem x hb))]
    exact insSorted_map le le2 g x (sortStable le xs) (fun b hb =>
      h x (List.mem_cons_self x xs) b
        (List.mem_cons_of_mem x ((mem_sortStable le xs b).mp hb)))

theorem pairwise_insSorted {α : Type} (le : α → α → Bool)
    (htot : ∀ a b, le a b = false → le b a = true)
    (htrans : ∀ a b c, le a b = true → le b c = true → le a c = true) (x : α) :
    ∀ l : List α, l.Pairwise (fun a b => le a b = true) →
      (insSorted le x l).Pairwise (fun a b => le a b = true) := by
  intro l
  induction l with
  | nil => intro _; simp [insSorted]
  | cons y ys ih =>
    intro hp
    rw [List.pairwise_cons] at hp
    obtain ⟨hy, hys⟩ := hp
    rw [insSorted]
    by_cases hxy : le x y = true
    · rw [if_pos hxy]
      refine List.Pairwise.cons ?_ (List.Pairwise.cons hy hys)
      intro b hb
      rcases List.mem_cons.mp hb with h1 | h2
      · rw [h1]; exact hxy
      · exact htrans x y b hxy (hy b h2)
    · rw [if_neg hxy]
      refine List.Pairwise.cons ?_ (ih hys)
      intro b hb
      rcases (mem_insSorted le x b ys).mp hb with h1 | h2
      · rw [h1]; exact htot x y (Bool.eq_false_iff.mpr hxy)
      · exact hy b h2

theorem pairwise_sortStable {α : Type} (le : α → α → Bool)
    (htot : ∀ a b, le a b = false → le b a = true)
    (htrans : ∀ a b c, le a b = true → le b c = true → le a c = true) :
    ∀ l : List α, (sortStable le l).Pairwise (fun a b => le a b = true) := by
  intro l
  induction l with
  | nil => exact List.Pairwise.nil
  | cons x xs ih => exact pairwise_insSorted le htot htrans x (sortStable le xs) ih

theorem insSorted_length {α : Type} (le : α → α → Bool) (x : α) :
    ∀ l : List α, (insSorted le x l).length = l.length + 1 := by
  intro l
  induction l with
  | nil => rfl
  | cons y ys ih =>
    rw [insSorted]
    by_cases h : le x y = true
    · rw [if_pos h]
      rfl
    · rw [if_neg h, List.length_cons, ih, List.length_cons]

theorem sortStable_length {α : Type} (le : α → α → Bool) :
    ∀ l : List α, (sortStable le l).length = l.length := by
  intro l
  induction l with
  | nil => rfl
  | cons x xs ih => rw [sortStable, insSorted_length, ih, List.length_cons]

/-- `filter` keeps everything when the predicate accepts everything. -/
theorem filterE_all {p : JVal → Except Unit Bool} :
    ∀ l : List JVal, (∀ x ∈ l, p x = .ok true) → filterE p l = .ok l := by
  intro l
  induction l with
  | nil => intro _; rfl
  | cons x xs ih =>
    intro h
    have hstep : filterE p (x :: xs) = Except.bind (p x)
        (fun b => Except.bind (filterE p xs)
          (fun rest => .ok (if b then x :: rest else rest))) := rfl
    rw [hstep, h x (List.mem_cons_self x xs),
      ih (fun y hy => h y (List.mem_cons_of_mem x hy))]
    rfl

/-- The filter callback evaluates to the endpoint test on every edge,
including edges with an empty source or target. -/
theorem pathFilter_eval (e : String × String × Option ℚ × Option ℚ) :
    (do
      let s ← jsGet (mkEdge e) "source"
      if truthy s then do
        let t ← jsGet (mkEdge e) "target"
        pure (truthy t)
      else pure false : Except Unit Bool) = .ok (hasEnds e) := by
  rw [show jsGet (mkEdge e) "source" = Except.ok (JVal.jstr e.1) from rfl]
  show (if truthy (JVal.jstr e.1) = true then
      Except.bind (jsGet (mkEdge e) "target") (fun t => pure (truthy t))
    else pure false) = Except.ok (hasEnds e)
  by_cases hs : e.1 = ""
  · rw [truthy_jstr_eq, if_neg (by simp [hs]),
      show hasEnds e = false from by simp [hasEnds, hs]]
    rfl
  · rw [truthy_jstr_eq, if_pos (by simp [hs]),
      show jsGet (mkEdge e) "target" = Except.ok (JVal.jstr e.2.1) from rfl]
    show Except.ok (truthy (JVal.jstr e.2.1)) = Except.ok (hasEnds e)
    rw [truthy_jstr_eq, show hasEnds e = decide (e.2.1 ≠ "") from by simp [hasEnds, hs]]

/-- `filterE` over mapped elements is the spec-level `List.filter`. -/
theorem filterE_decide {α : Type} {p : JVal → Except Unit Bool} {g : α → JVal}
    {q : α → Bool} :
    ∀ l : List α, (∀ x ∈ l, p (g x) = .ok (q x)) →
      filterE p (l.map g) = .ok ((l.filter q).map g) := by
  intro l
  induction l with
  | nil => intro _; rfl
  | cons x xs ih =>
    intro h
    have hstep : filterE p ((x :: xs).map g) = Except.bind (p (g x))
        (fun b => Except.bind (filterE p (xs.map g))
          (fun rest => .ok (if b then g x :: rest else rest))) := rfl
    rw [hstep, h x (List.mem_cons_self x xs),
      ih (fun y hy => h y (List.mem_cons_of_mem x hy))]
    cases hq : q x
    · rw [List.filter_cons, if_neg (by simp [hq])]
      rfl
    · rw [List.filter_cons, if_pos (by simp [hq])]
      rfl

/-- The map callback evaluates to the spec-level entry on every edge:
the weight when truthy, else the count, else `0`. -/
theorem pathMap_eval (e : String × String × Option ℚ × Option ℚ) :
    (do
      let s ← jsGet (mkEdge e) "source"
      let t ← jsGet (mkEdge e) "target"
      let wv ← jsGet (mkEdge e) "edge_weight"
      let value ←
        if truthy wv then pure wv
        else do
          let cv ← jsGet (mkEdge e) "count"
          pure (jsOr cv (.jnum (Qi 0)))
      pure (⟨.jstr (jsToString s ++ " → " ++ jsToString t), value⟩ : SEntry)
      : Except Unit SEntry) = .ok (edgeEntry e) := by
  rcases e with ⟨s, t, ow, oc⟩
  show (if truthy (wJ ow) = true then
      Except.bind (pure (wJ ow)) (fun value =>
        pure (⟨.jstr (s ++ " → " ++ t), value⟩ : SEntry))
    else
      Except.bind (jsGet (mkEdge (s, t, ow, oc)) "count") (fun cv =>
        Except.bind (pure (jsOr cv (.jnum (Qi 0)))) (fun value =>
          pure (⟨.jstr (s ++ " → " ++ t), value⟩ : SEntry)))) =
    Except.ok (edgeEntry (s, t, ow, oc))
  cases ow with
  | none =>
    rw [show truthy (wJ (none : Option ℚ)) = false from rfl, if_neg (by simp),
      show jsGet (mkEdge (s, t, (none : Option ℚ), oc)) "count" = Except.ok (wJ oc) from rfl]
    show Except.ok (⟨.jstr (s ++ " → " ++ t), jsOr (wJ oc) (.jnum (Qi 0))⟩ : SEntry) =
      Except.ok (edgeEntry (s, t, none, oc))
    rw [key_count]
    rfl
  | some w =>
    by_cases hw : w = 0
    · subst hw
      rw [show truthy (wJ (some (0 : ℚ))) = false from truthy_num_zero, if_neg (by simp),
        show jsGet (mkEdge (s, t, some (0 : ℚ), oc)) "count" = Except.ok (wJ oc) from rfl]
      show Except.ok (⟨.jstr (s ++ " → " ++ t), jsOr (wJ oc) (.jnum (Qi 0))⟩ : SEntry) =
        Except.ok (edgeEntry (s, t, some 0, oc))
      rw [key_count]
      rfl
    · rw [show truthy (wJ (some w)) = truthy (JVal.jnum w) from rfl,
        truthy_num_ne w hw, if_pos rfl]
      show Except.ok (⟨.jstr (s ++ " → " ++ t), JVal.jnum w⟩ : SEntry) =
        Except.ok (edgeEntry (s, t, some w, oc))
      rw [show edgeEntry (s, t, some w, oc) =
        ⟨.jstr (s ++ " → " ++ t), .jnum (if w = 0 then oc.getD 0 else w)⟩ from rfl,
        if_neg hw]

theorem mapE_edge :
    ∀ l : List (String × String × Option ℚ × Option ℚ),
      mapE (fun p => do
        let s ← jsGet p "source"
        let t ← jsGet p "target"
        let wv ← jsGet p "edge_weight"
        let value ←
          if truthy wv then pure wv
          else do
            let cv ← jsGet p "count"
            pure (jsOr cv (.jnum (Qi 0)))
        pure (⟨.jstr (jsToString s ++ " → " ++ jsToString t), value⟩ : SEntry)) (l.map mkEdge) =
      .ok (l.map edgeEntry) := by
  intro l
  induction l with
  | nil => rfl
  | cons e es ih =>
    have hstep : mapE (fun p => do
        let s ← jsGet p "source"
        let t ← jsGet p "target"
        let wv ← jsGet p "edge_weight"
        let value ←
          if truthy wv then pure wv
          else do
            let cv ← jsGet p "count"
            pure (jsOr cv (.jnum (Qi 0)))
        pure (⟨.jstr (jsToString s ++ " → " ++ jsToString t), value⟩ : SEntry))
        ((e :: es).map mkEdge) =
      Except.bind (do
        let s ← jsGet (mkEdge e) "source"
        let t ← jsGet (mkEdge e) "target"
        let wv ← jsGet (mkEdge e) "edge_weight"
        let value ←
          if truthy wv then pure wv
          else do
            let cv ← jsGet (mkEdge e) "count"
            pure (jsOr cv (.jnum (Qi 0)))
        pure (⟨.jstr (jsToString s ++ " → " ++ jsToString t), value⟩ : SEntry))
        (fun b => Except.bind (mapE (fun p => do
            let s ← jsGet p "source"
            let t ← jsGet p "target"
            let wv ← jsGet p "edge_weight"
            let value ←
              if truthy wv then pure wv
              else do
                let cv ← jsGet p "count"
                pure (jsOr cv (.jnum (Qi 0)))
            pure (⟨.jstr (jsToString s ++ " → " ++ jsToString t), value⟩ : SEntry))
            (es.map mkEdge))
          (fun bs => .ok (b :: bs))) := rfl
    rw [hstep, pathMap_eval e, ih]
    rfl

theorem pathsBranch_eval (es : List (String × String × Option ℚ × Option ℚ)) :
    pathsBranch (.jarr (es.map mkEdge)) initSt =
      .ok ⟨.jstr (formatNumber (.jnum (Qi es.length))), .jstr "total paths",
           ((sortStable edgeLe (es.filter hasEnds)).take 6).map edgeEntry⟩ := by
  have hstep : pathsBranch (.jarr (es.map mkEdge)) initSt =
      orSt (filterE (fun p => do
          let s ← jsGet p "source"
          if truthy s then do
            let t ← jsGet p "target"
            pure (truthy t)
          else pure false) (es.map mkEdge))
        (⟨.jstr (formatNumber (.jnum (Qi (es.map mkEdge).length))),
          .jstr "total paths", []⟩ : PartSt)
        (fun kept =>
          orSt (mapE (fun p => do
              let s ← jsGet p "source"
              let t ← jsGet p "target"
              let wv ← jsGet p "edge_weight"
              let value ←
                if truthy wv then pure wv
                else do
                  let cv ← jsGet p "count"
                  pure (jsOr cv (.jnum (Qi 0)))
              pure (⟨.jstr (jsToString s ++ " → " ++ jsToString t), value⟩ : SEntry))
            ((sortStable pathLe kept).take 6))
            (⟨.jstr (formatNumber (.jnum (Qi (es.map mkEdge).length))),
              .jstr "total paths", []⟩ : PartSt)
            (fun entries =>
              (Except.ok (⟨.jstr (formatNumber (.jnum (Qi (es.map mkEdge).length))),
                .jstr "total paths", entries⟩ : PartSt) : Except PartSt PartSt))) := rfl
  rw [hstep,
    filterE_decide es (fun x _ => pathFilter_eval x),
    orSt_ok,
    sortStable_map edgeLe pathLe mkEdge (es.filter hasEnds)
      (fun a _ b _ => pathLe_mkEdge a b),
    ← List.map_take,
    mapE_edge ((sortStable edgeLe (es.filter hasEnds)).take 6),
    orSt_ok]
  simp only [List.length_map]

/-- Nine path edges: one with an empty source (dropped by the filter),
one with no `edge_weight` but a `count` of 30, one with a falsy
`edge_weight` of 0 falling back to a `count` of 20, and six plain
weighted edges. -/
def pathsExample : List (String × String × Option ℚ × Option ℚ) :=
  [("a", "b", some 10, none), ("b", "c", some 80, none), ("", "x", some 99, none),
   ("c", "d", none, some 30), ("d", "e", some 90, none), ("e", "f", some 0, some 20),
   ("f", "g", some 60, none), ("g", "h", some 50, none), ("h", "i", some 40, none)]

/-- C6: for every PATHS insight, the series consists of exactly the
edges whose source and target are both present (nonempty), sorted
descending by the numeric key `edge_weight || count || 0`, truncated to
the top 6, each labelled `"source → target"` with that key as value; the
result is pairwise descending with `min 6 k` entries (`k` = number of
kept edges); the primary value is the compact-formatted count of all
edges and the secondary label is `"total paths"`.  Concretely, nine
edges — one filtered out for an empty source (despite the largest
weight 99), one valued by count fallback (30), one whose zero weight
falls back to its count — yield the six strictly descending entries
90, 80, 60, 50, 40, 30 and primary `"9"`. -/
theorem paths_extraction :
    (∀ (t : JVal) (es : List (String × String × Option ℚ × Option ℚ)),
      parseInsightData t (mkPathsInsight es) = .ok
        ⟨t, .jstr "PATHS", .jstr "",
         .jstr (formatNumber (.jnum (Qi es.length))), .jstr "total paths",
         ((sortStable edgeLe (es.filter hasEnds)).take 6).map edgeEntry⟩ ∧
      ((sortStable edgeLe (es.filter hasEnds)).take 6).Pairwise
        (fun a b => keyQ b.2.2.1 b.2.2.2 ≤ keyQ a.2.2.1 a.2.2.2) ∧
      (((sortStable edgeLe (es.filter hasEnds)).take 6).map edgeEntry).length =
        min 6 (es.filter hasEnds).length) ∧
    parseInsightData (.jstr "T") (mkPathsInsight pathsExample) = .ok
      ⟨.jstr "T", .jstr "PATHS", .jstr "", .jstr "9", .jstr "total paths",
       [⟨.jstr "d → e", .jnum 90⟩, ⟨.jstr "b → c", .jnum 80⟩,
        ⟨.jstr "f → g", .jnum 60⟩, ⟨.jstr "g → h", .jnum 50⟩,
        ⟨.jstr "h → i", .jnum 40⟩, ⟨.jstr "c → d", .jnum 30⟩]⟩ := by
  constructor
  · intro t es
    refine ⟨?_, ?_, ?_⟩
    · have hstep : parseInsightData t (mkPathsInsight es) =
          (let st := runCatch (pathsBranch (.jarr (es.map mkEdge)) initSt);
           .ok ⟨t, .jstr "PATHS", .jstr "", st.primaryValue, st.secondaryLabel, st.series⟩) :=
        rfl
      rw [hstep, pathsBranch_eval es]
      rfl
    · have hp := List.Pairwise.sublist
        (List.take_sublist 6 (sortStable edgeLe (es.filter hasEnds)))
        (pairwise_sortStable edgeLe
          (fun a b hab => decide_eq_true (le_of_lt (lt_of_not_le (of_decide_eq_false hab))))
          (fun a b c hab hbc => decide_eq_true
            (le_trans (of_decide_eq_true hbc) (of_decide_eq_true hab)))
          (es.filter hasEnds))
      exact hp.imp (fun hx => of_decide_eq_true hx)
    · rw [List.length_map, List.length_take, sortStable_length]
  · rfl

/-! ### C7: axis scaler -/

theorem qpow10_succ (k : ℤ) : qpow10 (k + 1) = qmul (Qi 10) (qpow10 k) := by
  rw [qpow10_eq_zpow, qpow10_eq_zpow, qmul_eq, Qi_eq]
  push_cast
  rw [zpow_add_one₀ (by norm_num : (10 : ℚ) ≠ 0)]
  ring

/-- The tick loop produces one rounded entry per multiple of `step`
(starting at `t`) that stays within `limit`, given enough fuel. -/
theorem tickLoop_count (step limit : ℚ) :
    ∀ (n f : ℕ) (t : ℚ), n ≤ f →
      (∀ i : ℕ, i < n → qadd t (qmul (Qi i) step) ≤ limit) →
      ¬ qadd t (qmul (Qi n) step) ≤ limit →
      tickLoop step limit f t =
        (List.range n).map (fun i : ℕ => jsRoundQ (qadd t (qmul (Qi (i : ℤ)) step))) := by
  intro n
  induction n with
  | zero =>
    intro f t _ _ hlast
    have hnt : ¬ t ≤ limit := by
      intro hle
      apply hlast
      simp only [qadd_eq, qmul_eq, Qi_eq]
      push_cast
      linarith
    cases f with
    | zero => rfl
    | succ f2 =>
      show (if t ≤ limit then jsRoundQ t :: tickLoop step limit f2 (qadd t step) else []) = _
      rw [if_neg hnt]
      rfl
  | succ n ih =>
    intro f t hnf hall hlast
    cases f with
    | zero => omega
    | succ f2 =>
      have ht : t ≤ limit := by
        have h0 := hall 0 (Nat.succ_pos n)
        simp only [qadd_eq, qmul_eq, Qi_eq] at h0
        push_cast at h0
        linarith
      show (if t ≤ limit then jsRoundQ t :: tickLoop step limit f2 (qadd t step) else []) = _
      rw [if_pos ht,
        ih f2 (qadd t step) (by omega)
          (fun i hi => by
            have h1 := hall (i + 1) (by omega)
            simp only [qadd_eq, qmul_eq, Qi_eq] at h1 ⊢
            push_cast at h1 ⊢
            linarith)
          (by
            intro hcon
            apply hlast
            simp only [qadd_eq, qmul_eq, Qi_eq] at hcon ⊢
            push_cast at hcon ⊢
            linarith)]
      rw [List.range_succ_eq_map, List.map_cons, List.map_map]
      congr 1
      · congr 1
        simp only [qadd_eq, qmul_eq, Qi_eq]
        push_cast
        ring
      · apply List.map_congr_left
        intro i _
        show jsRoundQ (qadd (qadd t step) (qmul (Qi i) step)) =
          jsRoundQ (qadd t (qmul (Qi (i + 1 : ℕ)) step))
        congr 1
        simp only [qadd_eq, qmul_eq, Qi_eq]
        push_cast
        ring

set_option maxHeartbeats 1600000 in
/-- C7: the axis scaler.  `rawMax ≤ 0` yields ticks `[0]` with axis max
`1`.  `rawMax = 47` yields step `2 × 10^1 = 20`, ticks `[0,20,40,60]`
and axis max `60 ≥ 47`, with `60 - 20 < 47`.  For any positive `rawMax`
the step is the magnitude `10^floor(log10(rawMax/4))` times the smallest
ladder multiplier reaching the rough step, the axis max is
`ceil(rawMax/step) × step`, it is at least `rawMax` while the previous
multiple is below it, and the ticks are the rounded multiples of the step
from `0` to the axis max inclusive. -/
theorem axis_scaler :
    (∀ q : ℚ, q ≤ Qi 0 → niceYAxis q = ⟨[0], Qi 1⟩) ∧
    (niceYAxis (Qi 47) = ⟨[0, 20, 40, 60], Qi 60⟩ ∧
     niceStep (Qi 47) = qmul (qpow10 1) (Qi 2) ∧
     Qi 2 ∈ ladder ∧ Qi 47 ≤ (niceYAxis (Qi 47)).axisMax ∧
     qsub (niceYAxis (Qi 47)).axisMax (niceStep (Qi 47)) < Qi 47) ∧
    (∀ q : ℚ, Qi 0 < q →
      (∃ m ∈ ladder,
        niceStep q = qmul (qpow10 (floorLog10 (qdiv q (Qi 4)))) m ∧
        qdiv q (Qi 4) ≤ qmul m (qpow10 (floorLog10 (qdiv q (Qi 4)))) ∧
        ∀ s ∈ ladder,
          qdiv q (Qi 4) ≤ qmul s (qpow10 (floorLog10 (qdiv q (Qi 4)))) → m ≤ s) ∧
      (niceYAxis q).axisMax = qmul (Qi ⌈qdiv q (niceStep q)⌉) (niceStep q) ∧
      q ≤ (niceYAxis q).axisMax ∧
      qsub (niceYAxis q).axisMax (niceStep q) < q ∧
      (niceYAxis q).ticks =
        (List.range (⌈qdiv q (niceStep q)⌉.toNat + 1)).map
          (fun i : ℕ => jsRoundQ (qmul (Qi (i : ℤ)) (niceStep q)))) := by
  refine ⟨?_, ⟨rfl, rfl, by decide, by decide, by decide⟩, ?_⟩
  · intro q h
    rw [niceYAxis, if_pos h]
  · intro q hq
    have hq' : (0 : ℚ) < q := by
      rw [Qi_eq] at hq
      push_cast at hq
      exact hq
    have hq0 : ¬ q ≤ Qi 0 := by
      rw [Qi_eq]
      push_cast
      exact not_le.mpr hq'
    have h4 : (Qi 4) ≠ (0 : ℚ) := by rw [Qi_eq]; norm_num
    have hrpos : 0 < qdiv q (Qi 4) := by
      rw [qdiv_eq q (Qi 4) h4, Qi_eq]
      positivity
    have hmagpos : 0 < qpow10 (floorLog10 (qdiv q (Qi 4))) := qpow10_pos _
    have hub : qdiv q (Qi 4) ≤
        qmul (Qi 10) (qpow10 (floorLog10 (qdiv q (Qi 4)))) := by
      rw [← qpow10_succ]
      exact le_of_lt (floorLog10_char (qdiv q (Qi 4)) hrpos).2
    have hub' : qdiv q (Qi 4) ≤
        qmul (qpow10 (floorLog10 (qdiv q (Qi 4)))) (Qi 10) := by
      rw [qmul_eq, mul_comm, ← qmul_eq]
      exact hub
    have hns : ∀ m : ℚ,
        (ladder.find? fun s =>
          decide (qdiv q (Qi 4) ≤ qmul s (qpow10 (floorLog10 (qdiv q (Qi 4)))))) = some m →
        niceStep q = qmul (qpow10 (floorLog10 (qdiv q (Qi 4)))) m := by
      intro m hf
      show qmul (qpow10 (floorLog10 (qdiv q (Qi 4))))
          ((ladder.find? fun s =>
            decide (qdiv q (Qi 4) ≤ qmul s (qpow10 (floorLog10 (qdiv q (Qi 4)))))).getD (Qi 1)) =
        qmul (qpow10 (floorLog10 (qdiv q (Qi 4)))) m
      rw [hf]
      rfl
    have hmem : ∀ s : ℚ, s ∈ ladder →
        s = Qi 1 ∨ s = Qi 2 ∨ s = mkRat 5 2 ∨ s = Qi 5 ∨ s = Qi 10 := by
      intro s hs
      simpa [ladder] using hs
    have hstep_ex : ∃ m ∈ ladder,
        niceStep q = qmul (qpow10 (floorLog10 (qdiv q (Qi 4)))) m ∧
        qdiv q (Qi 4) ≤ qmul m (qpow10 (floorLog10 (qdiv q (Qi 4)))) ∧
        ∀ s ∈ ladder,
          qdiv q (Qi 4) ≤ qmul s (qpow10 (floorLog10 (qdiv q (Qi 4)))) → m ≤ s := by
      by_cases h1 : qdiv q (Qi 4) ≤ qmul (Qi 1) (qpow10 (floorLog10 (qdiv q (Qi 4))))
      · refine ⟨Qi 1, by decide, hns (Qi 1) ?_, h1, ?_⟩
        · simp only [ladder, List.find?_cons, decide_eq_true h1]
        · intro s hs _
          rcases hmem s hs with rfl | rfl | rfl | rfl | rfl <;> decide
      · by_cases h2 : qdiv q (Qi 4) ≤ qmul (Qi 2) (qpow10 (floorLog10 (qdiv q (Qi 4))))
        · refine ⟨Qi 2, by decide, hns (Qi 2) ?_, h2, ?_⟩
          · simp only [ladder, List.find?_cons, decide_eq_false h1, decide_eq_true h2]
          · intro s hs hle
            rcases hmem s hs with rfl | rfl | rfl | rfl | rfl
            · exact absurd hle h1
            all_goals decide
        · by_cases h3 : qdiv q (Qi 4) ≤
              qmul (mkRat 5 2) (qpow10 (floorLog10 (qdiv q (Qi 4))))
          · refine ⟨mkRat 5 2, by decide, hns (mkRat 5 2) ?_, h3, ?_⟩
            · simp only [ladder, List.find?_cons, decide_eq_false h1,
                decide_eq_false h2, decide_eq_true h3]
            · intro s hs hle
              rcases hmem s hs with rfl | rfl | rfl | rfl | rfl
              · exact absurd hle h1
              · exact absurd hle h2
              all_goals decide
          · by_cases h5 : qdiv q (Qi 4) ≤
                qmul (Qi 5) (qpow10 (floorLog10 (qdiv q (Qi 4))))
            · refine ⟨Qi 5, by decide, hns (Qi 5) ?_, h5, ?_⟩
              · simp only [ladder, List.find?_cons, decide_eq_false h1,
                  decide_eq_false h2, decide_eq_false h3, decide_eq_true h5]
              · intro s hs hle
                rcases hmem s hs with rfl | rfl | rfl | rfl | rfl
                · exact absurd hle h1
                · exact absurd hle h2
                · exact absurd hle h3
                all_goals decide
            · have h10 : qdiv q (Qi 4) ≤
                  qmul (Qi 10) (qpow10 (floorLog10 (qdiv q (Qi 4)))) := hub
              refine ⟨Qi 10, by decide, hns (Qi 10) ?_, h10, ?_⟩
              · simp only [ladder, List.find?_cons, decide_eq_false h1,
                  decide_eq_false h2, decide_eq_false h3, decide_eq_false h5,
                  decide_eq_true h10]
              · intro s hs hle
                rcases hmem s hs with rfl | rfl | rfl | rfl | rfl
                · exact absurd hle h1
                · exact absurd hle h2
                · exact absurd hle h3
                · exact absurd hle h5
                · decide
    obtain ⟨m, hm, heq, hsat, hmin⟩ := hstep_ex
    have hmpos : (0 : ℚ) < m := by
      rcases hmem m hm with rfl | rfl | rfl | rfl | rfl <;> decide
    have hspos : 0 < niceStep q := by
      rw [heq, qmul_eq]
      positivity
    have hsne : niceStep q ≠ 0 := ne_of_gt hspos
    have hax : (niceYAxis q).axisMax =
        qmul (Qi ⌈qdiv q (niceStep q)⌉) (niceStep q) := by
      rw [niceYAxis, if_neg hq0]
    have hNpos : (0 : ℤ) < ⌈qdiv q (niceStep q)⌉ := by
      rw [qdiv_eq q (niceStep q) hsne]
      exact Int.ceil_pos.mpr (div_pos hq' hspos)
    have hNtZ : (⌈qdiv q (niceStep q)⌉.toNat : ℤ) = ⌈qdiv q (niceStep q)⌉ :=
      Int.toNat_of_nonneg (le_of_lt hNpos)
    refine ⟨⟨m, hm, heq, hsat, hmin⟩, hax, ?_, ?_, ?_⟩
    · rw [hax, qmul_eq, Qi_eq, qdiv_eq q (niceStep q) hsne]
      calc q = (q / niceStep q) * niceStep q := (div_mul_cancel₀ q hsne).symm
        _ ≤ (⌈q / niceStep q⌉ : ℚ) * niceStep q :=
          mul_le_mul_of_nonneg_right (Int.le_ceil _) (le_of_lt hspos)
    · rw [hax, qsub_eq, qmul_eq, Qi_eq, qdiv_eq q (niceStep q) hsne]
      have hc1 : ((⌈q / niceStep q⌉ : ℚ) - 1) < q / niceStep q := by
        have := Int.ceil_lt_add_one (q / niceStep q)
        linarith
      have hc2 : ((⌈q / niceStep q⌉ : ℚ) - 1) * niceStep q <
          (q / niceStep q) * niceStep q := mul_lt_mul_of_pos_right hc1 hspos
      rw [div_mul_cancel₀ q hsne, sub_mul, one_mul] at hc2
      exact hc2
    · have hticks : (niceYAxis q).ticks =
          tickLoop (niceStep q)
            (qadd (qmul (Qi ⌈qdiv q (niceStep q)⌉) (niceStep q))
              (qmul (niceStep q) (mkRat 1 100)))
            (⌈qdiv q (niceStep q)⌉.toNat + 2) 0 := by
        rw [niceYAxis, if_neg hq0]
      have h100 : 0 ≤ niceStep q * (1 / 100) := by positivity
      have hmapeq : (List.range (⌈qdiv q (niceStep q)⌉.toNat + 1)).map
            (fun i : ℕ => jsRoundQ (qmul (Qi (i : ℤ)) (niceStep q))) =
          (List.range (⌈qdiv q (niceStep q)⌉.toNat + 1)).map
            (fun i : ℕ => jsRoundQ (qadd 0 (qmul (Qi (i : ℤ)) (niceStep q)))) :=
        List.map_congr_left (fun i _ => by
          congr 1
          rw [qadd_eq, zero_add])
      rw [hmapeq, hticks,
        tickLoop_count (niceStep q) _ (⌈qdiv q (niceStep q)⌉.toNat + 1)
          (⌈qdiv q (niceStep q)⌉.toNat + 2) 0 (by omega)
          (fun i hi => by
            simp only [qadd_eq, qmul_eq, Qi_eq, Rat.mkRat_eq_div]
            push_cast
            have hiZ : (i : ℤ) ≤ ⌈qdiv q (niceStep q)⌉ := by omega
            have hiQ : (i : ℚ) ≤ ((⌈qdiv q (niceStep q)⌉ : ℤ) : ℚ) := by
              exact_mod_cast hiZ
            have hmul := mul_le_mul_of_nonneg_right hiQ (le_of_lt hspos)
            linarith)
          (by
            intro hcon
            simp only [qadd_eq, qmul_eq, Qi_eq, Rat.mkRat_eq_div] at hcon
            push_cast at hcon
            have hNtQ : ((⌈qdiv q (niceStep q)⌉.toNat : ℕ) : ℚ) =
                ((⌈qdiv q (niceStep q)⌉ : ℤ) : ℚ) := by
              exact_mod_cast hNtZ
            rw [hNtQ] at hcon
            linarith)]


/-- Witness for `axis_scaler`: the non-positive clause at `-3` and the
positive clause at `47`. -/
theorem axis_scaler_w :
    (Qi (-3) ≤ Qi 0 ∧ niceYAxis (Qi (-3)) = ⟨[0], Qi 1⟩) ∧
    (Qi 0 < Qi 47 ∧ Qi 47 ≤ (niceYAxis (Qi 47)).axisMax ∧
     (niceYAxis (Qi 47)).ticks =
       (List.range (⌈qdiv (Qi 47) (niceStep (Qi 47))⌉.toNat + 1)).map
         (fun i : ℕ => jsRoundQ (qmul (Qi (i : ℤ)) (niceStep (Qi 47))))) :=
  ⟨⟨by decide, axis_scaler.1 (Qi (-3)) (by decide)⟩,
   ⟨by decide, (axis_scaler.2.2 (Qi 47) (by decide)).2.2.1,
    (axis_scaler.2.2 (Qi 47) (by decide)).2.2.2.2⟩⟩
